import Mathlib

/-!
# Verification of the Hold'em engine core

Shallow embedding of the poker engine: card/deck model, hand evaluator,
pot manager, betting engine, game-engine action application, and the
solver card adapter, together with theorems about the documented
behaviour of those components.

Conventions of the embedding:
* chip quantities that the engine keeps (stacks, street bets, hand totals,
  pot amounts) are `Nat`, since the engine never lets them go negative;
* intermediate arithmetic that the betting engine performs on JavaScript
  numbers (amount-to-call, clamped amounts, raise costs) is `Int`, so that
  the comparisons behave exactly like the source even off the happy path;
* JavaScript array `sort` calls are modelled with `List.insertionSort`
  (the comparators involved are total, so the sorted list is unique);
* fallible operations (deck draw on an empty deck, hand evaluation of
  fewer than five cards) return `Option`.
-/

set_option linter.unusedVariables false

-- ── Data model ────────────────────────────────────────────────────────

inductive Suit where
  | hearts
  | diamonds
  | clubs
  | spades
deriving DecidableEq, Repr

structure Card where
  suit : Suit
  rank : Nat
deriving DecidableEq, Repr

def defaultCard : Card := ⟨Suit.hearts, 2⟩

inductive PlayerStatus where
  | ACTIVE
  | FOLDED
  | ALL_IN
  | BUSTED
  | SITTING_OUT
deriving DecidableEq, Repr

structure Player where
  id : Nat
  name : String
  chips : Nat
  holeCards : List Card
  currentBet : Nat
  totalBetThisHand : Nat
  hasActedThisRound : Bool
  status : PlayerStatus
  seatIndex : Nat
  isHuman : Bool
  isDealer : Bool
deriving DecidableEq, Repr

inductive GamePhase where
  | WAITING
  | HAND_INIT
  | PRE_FLOP
  | FLOP
  | TURN
  | RIVER
  | SHOWDOWN
  | CLEANUP
  | GAME_OVER
deriving DecidableEq, Repr

inductive ActionType where
  | FOLD
  | CHECK
  | CALL
  | BET
  | RAISE
  | ALL_IN
  | POST_SB
  | POST_BB
deriving DecidableEq, Repr

structure LegalAction where
  type : ActionType
  minAmount : Option Int := none
  maxAmount : Option Int := none
  callAmount : Option Int := none
deriving DecidableEq, Repr

structure Pot where
  amount : Nat
  eligiblePlayerIds : List Nat
deriving DecidableEq, Repr

structure EvaluatedHand where
  rank : Nat
  bestFive : List Card
  values : List Nat
  description : String
deriving DecidableEq, Repr

structure WinnerInfo where
  playerId : Nat
  playerName : String
  amount : Nat
  potIndex : Nat
  hand : Option EvaluatedHand := none
deriving DecidableEq, Repr

structure LogEntry where
  playerId : Nat
  playerName : String
  action : ActionType
  amount : Nat
  phase : GamePhase
  handNumber : Nat
deriving DecidableEq, Repr

structure GameState where
  players : List Player
  communityCards : List Card
  pots : List Pot
  currentBet : Nat
  lastRaiseIncrement : Nat
  phase : GamePhase
  dealerIndex : Nat
  activePlayerIndex : Int
  smallBlindIndex : Nat
  bigBlindIndex : Nat
  handNumber : Nat
  actionLog : List LogEntry
  winners : Option (List WinnerInfo)
  humanActionRequired : Bool
  legalActions : List LegalAction
deriving Repr

-- ── Constants ─────────────────────────────────────────────────────────

def BIG_BLIND : Nat := 4

def SMALL_BLIND : Nat := 2

def STARTING_CHIPS : Nat := 400

def MIN_PLAYERS : Nat := 2

def MAX_PLAYERS : Nat := 9

-- ── Hand rank constants (the 10-valued enum, 1 = best) ────────────────

def HandRank.ROYAL_FLUSH : Nat := 1

def HandRank.STRAIGHT_FLUSH : Nat := 2

def HandRank.FOUR_OF_A_KIND : Nat := 3

def HandRank.FULL_HOUSE : Nat := 4

def HandRank.FLUSH : Nat := 5

def HandRank.STRAIGHT : Nat := 6

def HandRank.THREE_OF_A_KIND : Nat := 7

def HandRank.TWO_PAIR : Nat := 8

def HandRank.ONE_PAIR : Nat := 9

def HandRank.HIGH_CARD : Nat := 10

def RANK_LABELS (r : Nat) : String :=
  if r = 2 then "2" else if r = 3 then "3" else if r = 4 then "4"
  else if r = 5 then "5" else if r = 6 then "6" else if r = 7 then "7"
  else if r = 8 then "8" else if r = 9 then "9" else if r = 10 then "10"
  else if r = 11 then "J" else if r = 12 then "Q" else if r = 13 then "K"
  else if r = 14 then "A" else ""

-- ── Pot manager ───────────────────────────────────────────────────────

/-- `sameEligible` from the pot manager: two eligible-id lists are "the
same" when they have equal length and agree pointwise after sorting. -/
def sameEligible (a b : List Nat) : Bool :=
  if a.length ≠ b.length then false
  else
    let sa := List.insertionSort (· ≤ ·) a
    let sb := List.insertionSort (· ≤ ·) b
    (sa.zip sb).all (fun q => q.1 == q.2)

/-- The loop of `mergePots`: `last` is the pot currently at the end of the
`merged` array; a pot with the same eligible set is folded into it,
otherwise `last` is emitted and the new pot becomes the accumulator. -/
def mergeLoop (last : Pot) : List Pot → List Pot
  | [] => [last]
  | q :: rest =>
    if sameEligible last.eligiblePlayerIds q.eligiblePlayerIds then
      mergeLoop ⟨last.amount + q.amount, last.eligiblePlayerIds⟩ rest
    else
      last :: mergeLoop q rest

/-- Merge adjacent pots with identical eligible sets. -/
def mergePots : List Pot → List Pot
  | [] => []
  | p :: ps => mergeLoop p ps

/-- The eligible-id list of the layer at a given bet level: contributors
(total bet at least the level) that have not folded. -/
def eligibleAt (bettors : List Player) (level : Nat) : List Nat :=
  ((bettors.filter (fun p => level ≤ p.totalBetThisHand)).filter
      (fun p => !(p.status == PlayerStatus.FOLDED))).map (fun p => p.id)

/-- The layer-peeling loop of `buildSidePots`: walk the distinct bet
levels in ascending order, peeling `(level - previousLevel) * |contributors|`
chips into a pot at each level (skipping degenerate increments). -/
def potLayers (bettors : List Player) : Nat → List Nat → List Pot
  | _, [] => []
  | previousLevel, level :: rest =>
    if level ≤ previousLevel then potLayers bettors previousLevel rest
    else
      let contributors := bettors.filter (fun p => level ≤ p.totalBetThisHand)
      { amount := (level - previousLevel) * contributors.length,
        eligiblePlayerIds :=
          (contributors.filter (fun p => !(p.status == PlayerStatus.FOLDED))).map
            (fun p => p.id) }
        :: potLayers bettors level rest

/-- `buildSidePots`: collect distinct nonzero total bets ascending, peel
layers, and merge adjacent pots with identical eligible sets. -/
def buildSidePots (players : List Player) : List Pot :=
  let bettors := players.filter (fun p => 0 < p.totalBetThisHand)
  if bettors.isEmpty then []
  else
    let betLevels :=
      List.insertionSort (· ≤ ·) ((bettors.map (fun p => p.totalBetThisHand)).dedup)
    mergePots (potLayers bettors 0 betLevels)

/-- Eligible set of the second pot is contained (as a sublist) in that of
the first: the order in which layers shrink. -/
def eligSub (a b : Pot) : Prop :=
  List.Sublist b.eligiblePlayerIds a.eligiblePlayerIds

/-- Strict version of `eligSub`: strictly fewer eligible ids. -/
def eligStrict (a b : Pot) : Prop :=
  List.Sublist b.eligiblePlayerIds a.eligiblePlayerIds
    ∧ b.eligiblePlayerIds.length < a.eligiblePlayerIds.length

instance : IsTrans Pot eligStrict :=
  ⟨fun _ _ _ h1 h2 => ⟨h2.1.trans h1.1, Nat.lt_trans h2.2 h1.2⟩⟩

-- ── Solver card adapter ───────────────────────────────────────────────

/-- Solver suit convention: 0=clubs, 1=diamonds, 2=hearts, 3=spades. -/
def SUIT_TO_SOLVER : Suit → Nat
  | Suit.clubs => 0
  | Suit.diamonds => 1
  | Suit.hearts => 2
  | Suit.spades => 3

def SOLVER_TO_SUIT : List Suit :=
  [Suit.clubs, Suit.diamonds, Suit.hearts, Suit.spades]

/-- `cardId = (rank - 2) * 4 + suitIndex`. -/
def cardToSolverId (card : Card) : Nat :=
  (card.rank - 2) * 4 + SUIT_TO_SOLVER card.suit

/-- Inverse direction: rank from the quotient, suit from the remainder. -/
def solverIdToCard (id : Nat) : Card :=
  { rank := id / 4 + 2, suit := SOLVER_TO_SUIT.getD (id % 4) Suit.clubs }

/-- Canonical unordered-pair index into the 1326-length combo vector. -/
def comboIndex (solverIdA solverIdB : Nat) : Nat :=
  let c1 := min solverIdA solverIdB
  let c2 := max solverIdA solverIdB
  52 * c1 - c1 * (c1 + 1) / 2 + c2 - c1 - 1

-- ── Deck ──────────────────────────────────────────────────────────────

def SUITS : List Suit := [Suit.hearts, Suit.diamonds, Suit.clubs, Suit.spades]

def RANKS : List Nat := [2, 3, 4, 5, 6, 7, 8, 9, 10, 11, 12, 13, 14]

def createFullDeck : List Card :=
  SUITS.flatMap (fun s => RANKS.map (fun r => ⟨s, r⟩))

/-- Deck state: the card array and the position of the next card.
The shuffle is not modelled (it permutes `cards` in place, preserving
length, which is all the exhaustion argument uses). -/
structure DeckState where
  cards : List Card
  index : Nat
deriving Repr

/-- `Deck.draw`: the `none` result is the "No more cards" error branch. -/
def Deck.draw (d : DeckState) : Option (Card × DeckState) :=
  if d.cards.length ≤ d.index then none
  else some (d.cards.getD d.index defaultCard, ⟨d.cards, d.index + 1⟩)

/-- `Deck.burn`: the `none` result is the "No more cards to burn" error. -/
def Deck.burn (d : DeckState) : Option DeckState :=
  if d.cards.length ≤ d.index then none
  else some ⟨d.cards, d.index + 1⟩

inductive DeckOp where
  | draw
  | burn
deriving DecidableEq, Repr

def runOps (d : DeckState) : List DeckOp → Option DeckState
  | [] => some d
  | DeckOp.draw :: rest =>
    match Deck.draw d with
    | none => none
    | some (_, d') => runOps d' rest
  | DeckOp.burn :: rest =>
    match Deck.burn d with
    | none => none
    | some d' => runOps d' rest

/-- The deck operations of one full hand: two hole cards for each of `n`
players, then burn + 3 flop cards, burn + turn, burn + river. -/
def handDeckOps (n : Nat) : List DeckOp :=
  List.replicate (2 * n) DeckOp.draw
    ++ [DeckOp.burn, DeckOp.draw, DeckOp.draw, DeckOp.draw]
    ++ [DeckOp.burn, DeckOp.draw]
    ++ [DeckOp.burn, DeckOp.draw]

-- ── Betting engine ────────────────────────────────────────────────────

/-- `calculateLegalActions`: pure function of the player and table state.
Arithmetic on amounts is `Int`, mirroring the JavaScript number
computations (`amountToCall` may be negative off the happy path). -/
def calculateLegalActions (player : Player) (gameState : GameState) : List LegalAction :=
  if player.status ≠ PlayerStatus.ACTIVE ∨ player.chips ≤ 0 then []
  else
    let amountToCall : Int := (gameState.currentBet : Int) - (player.currentBet : Int)
    let playerChips : Int := (player.chips : Int)
    (if 0 < amountToCall then [({ type := ActionType.FOLD } : LegalAction)] else [])
    ++
    (if amountToCall = 0 then
      ({ type := ActionType.CHECK } : LegalAction) ::
      (if gameState.phase = GamePhase.PRE_FLOP ∧ 0 < gameState.currentBet then
        -- pre-flop big-blind option: a RAISE scenario, not a BET
        (let minRaiseTotal : Int :=
          (gameState.currentBet : Int) + (gameState.lastRaiseIncrement : Int)
         let raiseChipsNeeded : Int := minRaiseTotal - (player.currentBet : Int)
         if playerChips ≤ raiseChipsNeeded then
           [{ type := ActionType.ALL_IN, minAmount := some playerChips,
              maxAmount := some playerChips }]
         else
           [{ type := ActionType.RAISE, minAmount := some minRaiseTotal,
              maxAmount := some ((player.currentBet : Int) + playerChips) }])
      else
        (let minBet : Int := (BIG_BLIND : Int)
         if playerChips ≤ minBet then
           [{ type := ActionType.ALL_IN, minAmount := some playerChips,
              maxAmount := some playerChips }]
         else
           [{ type := ActionType.BET, minAmount := some minBet,
              maxAmount := some playerChips }]))
    else
      (if playerChips ≤ amountToCall then
        [{ type := ActionType.ALL_IN, minAmount := some playerChips,
           maxAmount := some playerChips, callAmount := some playerChips }]
      else
        ({ type := ActionType.CALL, callAmount := some amountToCall } : LegalAction) ::
        (let minRaiseTotal : Int :=
          (gameState.currentBet : Int) + (gameState.lastRaiseIncrement : Int)
         let raiseChipsNeeded : Int := minRaiseTotal - (player.currentBet : Int)
         if amountToCall < playerChips then
           (if playerChips < raiseChipsNeeded then
             -- can't make the minimum raise; incomplete all-in raise
             [{ type := ActionType.ALL_IN, minAmount := some playerChips,
                maxAmount := some playerChips }]
           else
             [{ type := ActionType.RAISE, minAmount := some minRaiseTotal,
                maxAmount := some ((player.currentBet : Int) + playerChips) }])
         else [])))

/-- `validateAction`: normalize a requested action against the legal list.
Never fails; downgrades, clamps and promotes instead. -/
def validateAction (action : ActionType × Int) (legalActions : List LegalAction)
    (player : Player) (gameState : GameState) : ActionType × Int :=
  match legalActions.find? (fun a => a.type == action.1) with
  | none =>
    match legalActions.find? (fun a => a.type == ActionType.CHECK) with
    | some _ => (ActionType.CHECK, 0)
    | none => (ActionType.FOLD, 0)
  | some legal =>
    match action.1 with
    | ActionType.FOLD => (ActionType.FOLD, 0)
    | ActionType.CHECK => (ActionType.CHECK, 0)
    | ActionType.CALL => (ActionType.CALL, legal.callAmount.getD 0)
    | ActionType.BET =>
      let clamped := min (max action.2 (legal.minAmount.getD 0)) (legal.maxAmount.getD 0)
      if (player.chips : Int) ≤ clamped then (ActionType.ALL_IN, (player.chips : Int))
      else (ActionType.BET, clamped)
    | ActionType.RAISE =>
      let clamped := min (max action.2 (legal.minAmount.getD 0)) (legal.maxAmount.getD 0)
      let raiseAmount := clamped - (player.currentBet : Int)
      if (player.chips : Int) ≤ raiseAmount then (ActionType.ALL_IN, (player.chips : Int))
      else (ActionType.RAISE, clamped)
    | ActionType.ALL_IN => (ActionType.ALL_IN, (player.chips : Int))
    | _ => (ActionType.FOLD, 0)

/-- A baseline game state used by concrete witnesses. -/
def gsBase : GameState :=
  { players := [], communityCards := [], pots := [], currentBet := 0,
    lastRaiseIncrement := BIG_BLIND, phase := GamePhase.WAITING, dealerIndex := 0,
    activePlayerIndex := -1, smallBlindIndex := 0, bigBlindIndex := 0,
    handNumber := 0, actionLog := [], winners := none,
    humanActionRequired := false, legalActions := [] }

/-- Concrete player construction used by witnesses. -/
def mkPlayer (id seat chips currentBet totalBet : Nat) (status : PlayerStatus)
    (acted : Bool) : Player :=
  { id := id, name := "P" ++ toString id, chips := chips, holeCards := [],
    currentBet := currentBet, totalBetThisHand := totalBet,
    hasActedThisRound := acted, status := status, seatIndex := seat,
    isHuman := false, isDealer := false }

-- ── Hand comparator and pot distribution ──────────────────────────────

/-- The index loop of `compareEvaluatedHands`: position `i`, `fuel`
iterations left, values read with `?? 0` padding. Index 0 is the hand
rank (lower wins); later values are kickers (higher wins). -/
def cmpLoop (a b : List Nat) : Nat → Nat → Int
  | _, 0 => 0
  | i, fuel + 1 =>
    let va := a.getD i 0
    let vb := b.getD i 0
    if i = 0 then
      if va ≠ vb then (vb : Int) - (va : Int) else cmpLoop a b (i + 1) fuel
    else
      if va ≠ vb then (va : Int) - (vb : Int) else cmpLoop a b (i + 1) fuel

/-- `compareEvaluatedHands`: positive iff `a` is better, 0 on a tie. -/
def compareEvaluatedHands (a b : EvaluatedHand) : Int :=
  cmpLoop a.values b.values 0 (max a.values.length b.values.length)

def defaultHand : EvaluatedHand :=
  { rank := 0, bestFive := [], values := [], description := "" }

def playerNameOf (players : List Player) (id : Nat) : String :=
  ((players.find? (fun p => p.id == id)).map (fun p => p.name)).getD ""

def seatIndexOf (players : List Player) (id : Nat) : Nat :=
  ((players.find? (fun p => p.id == id)).map (fun p => p.seatIndex)).getD 0

/-- Sort winner ids by seat position counted from the player immediately
left of the dealer (worst post-flop position first). -/
def sortByPositionFromDealer (winnerIds : List Nat) (players : List Player)
    (dealerIndex : Nat) : List Nat :=
  let totalPlayers := players.length
  List.insertionSort
    (fun a b =>
      ((seatIndexOf players a : Int) - (dealerIndex : Int) - 1 + (totalPlayers : Int))
          % (totalPlayers : Int)
        ≤ ((seatIndexOf players b : Int) - (dealerIndex : Int) - 1 + (totalPlayers : Int))
          % (totalPlayers : Int))
    winnerIds

/-- Eligible ids of a pot that also have an evaluated hand. -/
def eligibleWithHands (pot : Pot) (playerHands : List (Nat × EvaluatedHand)) : List Nat :=
  pot.eligiblePlayerIds.filter (fun id => (playerHands.lookup id).isSome)

/-- The best hand among the eligible players (the loop starting from
`eligible[0]`, replacing on strictly-better comparisons). -/
def bestHandOf (eligible : List Nat)
    (playerHands : List (Nat × EvaluatedHand)) : EvaluatedHand :=
  eligible.tail.foldl
    (fun best id =>
      let hand := (playerHands.lookup id).getD defaultHand
      if 0 < compareEvaluatedHands hand best then hand else best)
    ((playerHands.lookup (eligible.headD 0)).getD defaultHand)

/-- All eligible players whose hand ties the best hand. -/
def tiedWinners (pot : Pot) (playerHands : List (Nat × EvaluatedHand)) : List Nat :=
  let eligible := eligibleWithHands pot playerHands
  eligible.filter
    (fun id =>
      compareEvaluatedHands ((playerHands.lookup id).getD defaultHand)
        (bestHandOf eligible playerHands) = 0)

/-- Settle one pot: degenerate fallback, sole winner, or split with
floor shares and odd chips to the winners closest left of the dealer. -/
def settlePot (potIndex : Nat) (pot : Pot)
    (playerHands : List (Nat × EvaluatedHand)) (players : List Player)
    (dealerIndex : Nat) : List WinnerInfo :=
  let eligible := eligibleWithHands pot playerHands
  if eligible.length = 0 then
    match pot.eligiblePlayerIds with
    | [] => []
    | firstId :: _ =>
      [{ playerId := firstId, playerName := playerNameOf players firstId,
         amount := pot.amount, potIndex := potIndex }]
  else if eligible.length = 1 then
    [{ playerId := eligible.headD 0,
       playerName := playerNameOf players (eligible.headD 0),
       amount := pot.amount, potIndex := potIndex,
       hand := playerHands.lookup (eligible.headD 0) }]
  else
    let winners := tiedWinners pot playerHands
    if winners.length = 1 then
      [{ playerId := winners.headD 0,
         playerName := playerNameOf players (winners.headD 0),
         amount := pot.amount, potIndex := potIndex,
         hand := playerHands.lookup (winners.headD 0) }]
    else
      let share := pot.amount / winners.length
      let remainder := pot.amount - share * winners.length
      let sortedWinners := sortByPositionFromDealer winners players dealerIndex
      sortedWinners.enum.map
        (fun iw =>
          { playerId := iw.2, playerName := playerNameOf players iw.2,
            amount := share + (if iw.1 < remainder then 1 else 0),
            potIndex := potIndex, hand := playerHands.lookup iw.2 })

/-- `distributePots`: each pot settled independently, results in order. -/
def distributePots (pots : List Pot) (playerHands : List (Nat × EvaluatedHand))
    (players : List Player) (dealerIndex : Nat) : List WinnerInfo :=
  pots.enum.flatMap
    (fun pi => settlePot pi.1 pi.2 playerHands players dealerIndex)

/-- A concrete tied hand used by distribution witnesses. -/
def pairOfNines : EvaluatedHand :=
  { rank := HandRank.ONE_PAIR, bestFive := [],
    values := [HandRank.ONE_PAIR, 9, 14, 13, 12], description := "Pair of 9s" }

-- ── Game engine: applying an action ───────────────────────────────────

def defaultPlayer : Player :=
  { id := 0, name := "", chips := 0, holeCards := [], currentBet := 0,
    totalBetThisHand := 0, hasActedThisRound := false,
    status := PlayerStatus.FOLDED, seatIndex := 0, isHuman := false,
    isDealer := false }

/-- The player object the engine methods operate on, looked up by id. -/
def actorOf (gs : GameState) (pid : Nat) : Player :=
  (gs.players.find? (fun p => p.id == pid)).getD defaultPlayer

/-- Apply an update to the player with the given id (object mutation in
the source; keyed update here). -/
def updatePlayer (players : List Player) (pid : Nat) (f : Player → Player) :
    List Player :=
  players.map (fun p => if p.id = pid then f p else p)

/-- `placeBet`: move chips into the street bet and the hand total,
capped at the stack. -/
def placeBet (player : Player) (amount : Nat) : Player :=
  let actual := min amount player.chips
  { player with
    chips := player.chips - actual,
    currentBet := player.currentBet + actual,
    totalBetThisHand := player.totalBetThisHand + actual }

/-- `reopenAction`: clear the acted-flag of every other ACTIVE player. -/
def reopenAction (players : List Player) (excludeId : Nat) : List Player :=
  players.map (fun p =>
    if p.id ≠ excludeId ∧ p.status = PlayerStatus.ACTIVE then
      { p with hasActedThisRound := false }
    else p)

def addLog (gs : GameState) (player : Player) (action : ActionType)
    (amount : Nat) : GameState :=
  { gs with
    actionLog := gs.actionLog
      ++ [{ playerId := player.id, playerName := player.name, action := action,
            amount := amount, phase := gs.phase, handNumber := gs.handNumber }] }

/-- `GameEngine.applyAction`: mutate chips/bets/statuses for one
validated action, mark the actor as having acted, log, and rebuild the
pots. A bet or raise reopens action; an all-in reopens action only when
its raise increment reaches `lastRaiseIncrement` (a full raise). -/
def applyAction (gs : GameState) (pid : Nat) (action : ActionType × Nat) :
    GameState :=
  let player := actorOf gs pid
  let logAmount : Nat :=
    match action.1 with
    | ActionType.FOLD => 0
    | ActionType.CHECK => 0
    | ActionType.CALL => min (gs.currentBet - player.currentBet) player.chips
    | ActionType.BET => action.2
    | ActionType.RAISE => action.2
    | ActionType.ALL_IN => player.chips
    | _ => action.2
  let gs1 : GameState :=
    match action.1 with
    | ActionType.FOLD =>
      { gs with
        players := updatePlayer gs.players pid
          (fun p => { p with status := PlayerStatus.FOLDED }) }
    | ActionType.CHECK => gs
    | ActionType.CALL =>
      let callAmount := gs.currentBet - player.currentBet
      let actual := min callAmount player.chips
      { gs with
        players := updatePlayer gs.players pid (fun p => placeBet p actual) }
    | ActionType.BET =>
      let betAmount := action.2
      let players1 := updatePlayer gs.players pid (fun p => placeBet p betAmount)
      { gs with
        players := reopenAction players1 pid,
        lastRaiseIncrement := betAmount,
        currentBet := (placeBet player betAmount).currentBet }
    | ActionType.RAISE =>
      let raiseTotal := action.2
      let raiseIncrement := raiseTotal - gs.currentBet
      let amountToAdd := raiseTotal - player.currentBet
      let players1 := updatePlayer gs.players pid (fun p => placeBet p amountToAdd)
      { gs with
        players := reopenAction players1 pid,
        currentBet := raiseTotal,
        lastRaiseIncrement :=
          if gs.lastRaiseIncrement ≤ raiseIncrement then raiseIncrement
          else gs.lastRaiseIncrement }
    | ActionType.ALL_IN =>
      let allInAmount := player.chips
      let newTotal := player.currentBet + allInAmount
      let players1 := updatePlayer gs.players pid
        (fun p => { placeBet p allInAmount with status := PlayerStatus.ALL_IN })
      if gs.currentBet < newTotal then
        let raiseIncrement := newTotal - gs.currentBet
        if gs.lastRaiseIncrement ≤ raiseIncrement then
          { gs with
            players := reopenAction players1 pid,
            currentBet := newTotal, lastRaiseIncrement := raiseIncrement }
        else
          -- incomplete raise: do not reopen already-acted players
          { gs with
            players := players1, currentBet := newTotal }
      else
        { gs with
          players := players1 }
    | _ => gs
  let gs2 : GameState :=
    { gs1 with
      players := updatePlayer gs1.players pid
        (fun p => { p with hasActedThisRound := true }) }
  let gs3 := addLog gs2 player action.1 logAmount
  { gs3 with pots := buildSidePots gs3.players }

/-- `GameEngine.findNextToAct`: first player in rotation from `startFrom`
that is ACTIVE and has either not acted or has a street bet below the
current bet. -/
def findNextToAct (gs : GameState) (actingOrder : List Nat) (startFrom : Nat) :
    Option (Nat × Nat) :=
  let len := actingOrder.length
  (List.range len).findSome? (fun i =>
    let idx := (startFrom + i) % len
    let pid := actingOrder.getD idx 0
    let player := actorOf gs pid
    if player.status = PlayerStatus.ACTIVE
        ∧ (player.hasActedThisRound = false ∨ player.currentBet < gs.currentBet)
    then some (pid, idx) else none)

-- ── Game engine lemmas (claim C4) ─────────────────────────────────────

/-- Three-handed flop state: seats 0,1,2; players 1 and 2 have matched
the 10-chip bet and acted; player 3 (15 chips behind) is to act. -/
def playersC4 : List Player :=
  [mkPlayer 1 0 90 10 10 PlayerStatus.ACTIVE true,
   mkPlayer 2 1 90 10 10 PlayerStatus.ACTIVE true,
   mkPlayer 3 2 15 0 0 PlayerStatus.ACTIVE false]

def gsC4 : GameState :=
  { gsBase with
    players := playersC4, currentBet := 10, lastRaiseIncrement := 10,
    phase := GamePhase.FLOP }

/-- The state after player 3 goes all-in for 15 (an incomplete raise:
increment 5 < minimum 10). -/
def gsC4after : GameState := applyAction gsC4 3 (ActionType.ALL_IN, 15)

-- ── Hand evaluator ────────────────────────────────────────────────────

/-- High card of a straight in a rank list (0 when not a straight);
the wheel A-2-3-4-5 returns 5. -/
def getStraightHighCard (sortedRanks : List Nat) : Nat :=
  let unique := List.insertionSort (· ≥ ·) sortedRanks.dedup
  if unique.length < 5 then 0
  else if unique.getD 0 0 - unique.getD 4 0 = 4 then unique.getD 0 0
  else if unique.getD 0 0 = 14 ∧ unique.getD 1 0 = 5 ∧ unique.getD 2 0 = 4
      ∧ unique.getD 3 0 = 3 ∧ unique.getD 4 0 = 2 then 5
  else 0

def makeResult (rank : Nat) (cards : List Card) (values : List Nat)
    (description : String) : EvaluatedHand :=
  { rank := rank, bestFive := cards, values := values,
    description := description }

/-- Evaluate a 5-card hand: flush and straight detection, then grouping
by descending (frequency, rank) into the 10 standard categories. -/
def evaluateFiveCards (cards : List Card) : EvaluatedHand :=
  let ranks := List.insertionSort (· ≥ ·) (cards.map (fun c => c.rank))
  let suits := cards.map (fun c => c.suit)
  let isFlush := suits.all (fun x => x == suits.getD 0 defaultCard.suit)
  let straightHighCard := getStraightHighCard ranks
  let isStraight := 0 < straightHighCard
  let groups := List.insertionSort
    (fun a b => b.2 < a.2 ∨ (a.2 = b.2 ∧ b.1 ≤ a.1))
    (ranks.dedup.map (fun r => (r, ranks.count r)))
  if isFlush ∧ isStraight then
    if straightHighCard = 14 then
      makeResult HandRank.ROYAL_FLUSH cards [HandRank.ROYAL_FLUSH, 14]
        "Royal Flush"
    else
      makeResult HandRank.STRAIGHT_FLUSH cards
        [HandRank.STRAIGHT_FLUSH, straightHighCard]
        ("Straight Flush, " ++ RANK_LABELS straightHighCard ++ " high")
  else if (groups.getD 0 (0, 0)).2 = 4 then
    makeResult HandRank.FOUR_OF_A_KIND cards
      [HandRank.FOUR_OF_A_KIND, (groups.getD 0 (0, 0)).1, (groups.getD 1 (0, 0)).1]
      ("Four of a Kind, " ++ RANK_LABELS (groups.getD 0 (0, 0)).1 ++ "s")
  else if (groups.getD 0 (0, 0)).2 = 3 ∧ (groups.getD 1 (0, 0)).2 = 2 then
    makeResult HandRank.FULL_HOUSE cards
      [HandRank.FULL_HOUSE, (groups.getD 0 (0, 0)).1, (groups.getD 1 (0, 0)).1]
      ("Full House, " ++ RANK_LABELS (groups.getD 0 (0, 0)).1 ++ "s full of "
        ++ RANK_LABELS (groups.getD 1 (0, 0)).1 ++ "s")
  else if isFlush then
    makeResult HandRank.FLUSH cards (HandRank.FLUSH :: ranks)
      ("Flush, " ++ RANK_LABELS (ranks.getD 0 0) ++ " high")
  else if isStraight then
    makeResult HandRank.STRAIGHT cards [HandRank.STRAIGHT, straightHighCard]
      ("Straight, " ++ RANK_LABELS straightHighCard ++ " high")
  else if (groups.getD 0 (0, 0)).2 = 3 then
    makeResult HandRank.THREE_OF_A_KIND cards
      (HandRank.THREE_OF_A_KIND :: (groups.getD 0 (0, 0)).1
        :: List.insertionSort (· ≥ ·) (groups.tail.map (fun g => g.1)))
      ("Three of a Kind, " ++ RANK_LABELS (groups.getD 0 (0, 0)).1 ++ "s")
  else if (groups.getD 0 (0, 0)).2 = 2 ∧ (groups.getD 1 (0, 0)).2 = 2 then
    makeResult HandRank.TWO_PAIR cards
      [HandRank.TWO_PAIR,
        max (groups.getD 0 (0, 0)).1 (groups.getD 1 (0, 0)).1,
        min (groups.getD 0 (0, 0)).1 (groups.getD 1 (0, 0)).1,
        (groups.getD 2 (0, 0)).1]
      ("Two Pair, "
        ++ RANK_LABELS (max (groups.getD 0 (0, 0)).1 (groups.getD 1 (0, 0)).1)
        ++ "s and "
        ++ RANK_LABELS (min (groups.getD 0 (0, 0)).1 (groups.getD 1 (0, 0)).1)
        ++ "s")
  else if (groups.getD 0 (0, 0)).2 = 2 then
    makeResult HandRank.ONE_PAIR cards
      (HandRank.ONE_PAIR :: (groups.getD 0 (0, 0)).1
        :: List.insertionSort (· ≥ ·) (groups.tail.map (fun g => g.1)))
      ("Pair of " ++ RANK_LABELS (groups.getD 0 (0, 0)).1 ++ "s")
  else
    makeResult HandRank.HIGH_CARD cards (HandRank.HIGH_CARD :: ranks)
      (RANK_LABELS (ranks.getD 0 0) ++ " High")

/-- The index-combination backtracking of `getCombinations`: all strictly
increasing index lists of the requested length drawn from `[start, n)`. -/
def backtrack (n : Nat) : Nat → Nat → List (List Nat)
  | _, 0 => [[]]
  | start, k + 1 =>
    (List.range' start (n - start)).flatMap
      (fun i => (backtrack n (i + 1) k).map (fun c => i :: c))

def getCombinations (n k : Nat) : List (List Nat) := backtrack n 0 k

/-- The pre-computed C(7,5) = 21 index combinations (the five nested
loops of the source). -/
def COMBINATIONS_7_5 : List (List Nat) :=
  (List.range' 0 7).flatMap fun i =>
    (List.range' (i + 1) (7 - (i + 1))).flatMap fun j =>
      (List.range' (j + 1) (7 - (j + 1))).flatMap fun k =>
        (List.range' (k + 1) (7 - (k + 1))).flatMap fun l =>
          (List.range' (l + 1) (7 - (l + 1))).map fun m => [i, j, k, l, m]

/-- One step of the best-hand loop: keep the strictly better hand. -/
def evalStep (best : Option EvaluatedHand) (evaluated : EvaluatedHand) :
    Option EvaluatedHand :=
  match best with
  | none => some evaluated
  | some b =>
    if 0 < compareEvaluatedHands evaluated b then some evaluated else some b

/-- `evaluateBestHand`: direct evaluation for 5 cards; otherwise the
maximum over all 5-card index combinations (pre-computed for 7 cards).
`none` models the thrown error for fewer than 5 cards. -/
def evaluateBestHand (holeCards communityCards : List Card) :
    Option EvaluatedHand :=
  let allCards := holeCards ++ communityCards
  if allCards.length < 5 then none
  else if allCards.length = 5 then some (evaluateFiveCards allCards)
  else
    let combos :=
      if allCards.length = 7 then COMBINATIONS_7_5
      else getCombinations allCards.length 5
    combos.foldl
      (fun best combo =>
        evalStep best
          (evaluateFiveCards (combo.map (fun i => allCards.getD i defaultCard))))
      none

-- ── Pot manager lemmas (claim C1) ─────────────────────────────────────

theorem mergeLoop_sum (rest : List Pot) : ∀ (last : Pot),
    ((mergeLoop last rest).map (fun q => q.amount)).sum
      = last.amount + (rest.map (fun q => q.amount)).sum := by
  induction rest with
  | nil => intro last; simp [mergeLoop]
  | cons q rest ih =>
    intro last
    by_cases h : sameEligible last.eligiblePlayerIds q.eligiblePlayerIds
    · simp [mergeLoop, h, ih]; omega
    · simp [mergeLoop, h, ih]

theorem mergePots_sum (pots : List Pot) :
    ((mergePots pots).map (fun q => q.amount)).sum
      = (pots.map (fun q => q.amount)).sum := by
  cases pots with
  | nil => rfl
  | cons p ps => simp [mergePots, mergeLoop_sum]

theorem layer_amount_eq (bettors : List Player) (level prev : Nat) :
    (level - prev) * (bettors.filter (fun p => level ≤ p.totalBetThisHand)).length
      = (bettors.map
          (fun p => if level ≤ p.totalBetThisHand then level - prev else 0)).sum := by
  induction bettors with
  | nil => simp
  | cons p ps ih =>
    by_cases h : level ≤ p.totalBetThisHand
    · simp [List.filter_cons, h, Nat.mul_succ, ← ih]; omega
    · simp [List.filter_cons, h, ← ih]

theorem peel_step (bettors : List Player) (level prev : Nat) (hprev : prev < level)
    (hgap : ∀ p ∈ bettors,
      prev < p.totalBetThisHand → p.totalBetThisHand < level → False) :
    (bettors.map (fun p => p.totalBetThisHand - prev)).sum
      = (bettors.map
          (fun p => if level ≤ p.totalBetThisHand then level - prev else 0)).sum
        + (bettors.map (fun p => p.totalBetThisHand - level)).sum := by
  induction bettors with
  | nil => simp
  | cons p ps ih =>
    have hp := hgap p (List.mem_cons_self p ps)
    have hps : ∀ q ∈ ps, prev < q.totalBetThisHand → q.totalBetThisHand < level → False :=
      fun q hq => hgap q (List.mem_cons_of_mem p hq)
    by_cases h : level ≤ p.totalBetThisHand
    · simp only [List.map_cons, List.sum_cons, h, if_pos]
      rw [ih hps]; omega
    · simp only [List.map_cons, List.sum_cons, if_neg h]
      rw [ih hps]
      have : p.totalBetThisHand ≤ prev := by
        by_contra hc
        exact hp (by omega) (by omega)
      omega

theorem potLayers_sum (bettors : List Player) :
    ∀ (levels : List Nat) (prev : Nat),
      List.Pairwise (· < ·) levels →
      (∀ l ∈ levels, prev < l) →
      (∀ p ∈ bettors, prev < p.totalBetThisHand → p.totalBetThisHand ∈ levels) →
      ((potLayers bettors prev levels).map (fun q => q.amount)).sum
        = (bettors.map (fun p => p.totalBetThisHand - prev)).sum := by
  intro levels
  induction levels with
  | nil =>
    intro prev _ _ h3
    simp only [potLayers, List.map_nil, List.sum_nil]
    symm
    apply List.sum_eq_zero
    intro x hx
    obtain ⟨p, hp, rfl⟩ := List.mem_map.mp hx
    by_cases hc : prev < p.totalBetThisHand
    · exact absurd (h3 p hp hc) (List.not_mem_nil _)
    · omega
  | cons level rest ih =>
    intro prev hpair hgt hmem
    have hlt : prev < level := hgt level (List.mem_cons_self _ _)
    have hskip : ¬ level ≤ prev := by omega
    simp only [potLayers, if_neg hskip, List.map_cons, List.sum_cons]
    have hpair' := (List.pairwise_cons.mp hpair).2
    have hhead := (List.pairwise_cons.mp hpair).1
    rw [ih level hpair' (fun l hl => hhead l hl)
        (fun p hp hbet => by
          have := hmem p hp (by omega)
          rcases List.mem_cons.mp this with h | h
          · omega
          · exact h)]
    rw [peel_step bettors level prev hlt
        (fun p hp h1 h2 => by
          have := hmem p hp h1
          rcases List.mem_cons.mp this with h | h
          · omega
          · exact absurd h2 (by
              have := hhead _ h
              omega))]
    rw [layer_amount_eq]

theorem bettors_sum (players : List Player) :
    ((players.filter (fun p => 0 < p.totalBetThisHand)).map
        (fun p => p.totalBetThisHand)).sum
      = (players.map (fun p => p.totalBetThisHand)).sum := by
  induction players with
  | nil => rfl
  | cons p ps ih =>
    by_cases h : 0 < p.totalBetThisHand
    · simp [List.filter_cons, h, ih]
    · simp [List.filter_cons, h, ih]; omega

theorem zip_all_eq_iff (x : List Nat) : ∀ (y : List Nat), x.length = y.length →
    (((x.zip y).all (fun q => q.1 == q.2)) = true ↔ x = y) := by
  induction x with
  | nil => intro y hy; cases y <;> simp_all
  | cons a x ih =>
    intro y hy
    cases y with
    | nil => simp at hy
    | cons b y =>
      simp only [List.zip_cons_cons, List.all_cons, Bool.and_eq_true, beq_iff_eq]
      rw [ih y (by simpa using hy)]
      constructor
      · rintro ⟨rfl, rfl⟩; rfl
      · intro h; injection h with h1 h2; exact ⟨h1, by rw [h2]⟩

theorem sameEligible_iff_perm (a b : List Nat) :
    sameEligible a b = true ↔ List.Perm a b := by
  unfold sameEligible
  by_cases hlen : a.length = b.length
  · simp only [hlen, ne_eq, not_true_eq_false, if_false]
    have hsl : (List.insertionSort (· ≤ ·) a).length = (List.insertionSort (· ≤ ·) b).length := by
      rw [(List.perm_insertionSort _ a).length_eq, (List.perm_insertionSort _ b).length_eq, hlen]
    rw [zip_all_eq_iff _ _ hsl]
    constructor
    · intro h
      exact ((List.perm_insertionSort _ a).symm.trans (h ▸ List.perm_insertionSort _ b))
    · intro h
      exact List.eq_of_perm_of_sorted
        (((List.perm_insertionSort _ a).trans h).trans (List.perm_insertionSort _ b).symm)
        (List.sorted_insertionSort _ a) (List.sorted_insertionSort _ b)
  · rw [if_pos (by simpa using hlen)]
    constructor
    · intro h; exact absurd h (by simp)
    · intro h; exact absurd h.length_eq hlen

theorem mergeLoop_head (rest : List Pot) : ∀ (last : Pot),
    ∃ a t, mergeLoop last rest = Pot.mk a last.eligiblePlayerIds :: t := by
  induction rest with
  | nil => intro last; exact ⟨last.amount, [], rfl⟩
  | cons q rest ih =>
    intro last
    by_cases h : sameEligible last.eligiblePlayerIds q.eligiblePlayerIds
    · obtain ⟨a, t, ht⟩ := ih ⟨last.amount + q.amount, last.eligiblePlayerIds⟩
      exact ⟨a, t, by simpa [mergeLoop, h] using ht⟩
    · exact ⟨last.amount, mergeLoop q rest, by simp [mergeLoop, h]⟩

theorem mergeLoop_chain (rest : List Pot) : ∀ (last : Pot),
    List.Chain eligSub last rest →
    List.Chain' eligStrict (mergeLoop last rest) := by
  induction rest with
  | nil => intro last _; exact List.chain'_singleton last
  | cons q rest ih =>
    intro last hch
    rcases List.chain_cons.mp hch with ⟨hlq, hqrest⟩
    by_cases h : sameEligible last.eligiblePlayerIds q.eligiblePlayerIds
    · have hperm := (sameEligible_iff_perm _ _).1 h
      have heq : q.eligiblePlayerIds = last.eligiblePlayerIds :=
        hlq.eq_of_length (hperm.length_eq.symm)
      simp only [mergeLoop, if_pos h]
      apply ih
      cases rest with
      | nil => exact List.Chain.nil
      | cons r rs =>
        rcases List.chain_cons.mp hqrest with ⟨h1, h2⟩
        refine List.chain_cons.mpr ⟨?_, h2⟩
        show List.Sublist r.eligiblePlayerIds last.eligiblePlayerIds
        rw [← heq]
        exact h1
    · simp only [mergeLoop, if_neg h]
      apply List.chain'_cons'.mpr
      refine ⟨?_, ih q hqrest⟩
      intro y hy
      obtain ⟨a, t, ht⟩ := mergeLoop_head rest q
      rw [ht] at hy
      simp only [List.head?_cons, Option.mem_def, Option.some.injEq] at hy
      subst hy
      refine ⟨hlq, ?_⟩
      rcases Nat.lt_or_ge q.eligiblePlayerIds.length last.eligiblePlayerIds.length with hl | hl
      · exact hl
      · exfalso
        have heq : q.eligiblePlayerIds = last.eligiblePlayerIds :=
          hlq.eq_of_length (Nat.le_antisymm hlq.length_le hl)
        exact h ((sameEligible_iff_perm _ _).2 (by rw [heq]))

theorem eligibleAt_mono (bettors : List Player) (l l' : Nat) (h : l ≤ l') :
    List.Sublist (eligibleAt bettors l') (eligibleAt bettors l) := by
  unfold eligibleAt
  apply List.Sublist.map
  apply List.Sublist.filter
  apply List.monotone_filter_right
  intro p hp
  simp only [decide_eq_true_eq] at hp ⊢
  omega

theorem potLayers_chain (bettors : List Player) :
    ∀ (levels : List Nat) (prev : Nat),
      List.Pairwise (· < ·) levels →
      List.Chain' eligSub (potLayers bettors prev levels)
        ∧ (∀ pot ∈ (potLayers bettors prev levels).head?,
            ∃ l ∈ levels, pot.eligiblePlayerIds = eligibleAt bettors l) := by
  intro levels
  induction levels with
  | nil => intro prev _; exact ⟨List.chain'_nil, by simp [potLayers]⟩
  | cons level rest ih =>
    intro prev hpair
    have hpair' := (List.pairwise_cons.mp hpair).2
    have hhead := (List.pairwise_cons.mp hpair).1
    by_cases hskip : level ≤ prev
    · simp only [potLayers, if_pos hskip]
      obtain ⟨hc, hh⟩ := ih prev hpair'
      refine ⟨hc, fun pot hpot => ?_⟩
      obtain ⟨l, hl, he⟩ := hh pot hpot
      exact ⟨l, List.mem_cons_of_mem _ hl, he⟩
    · simp only [potLayers, if_neg hskip]
      obtain ⟨hc, hh⟩ := ih level hpair'
      constructor
      · apply List.chain'_cons'.mpr
        refine ⟨fun y hy => ?_, hc⟩
        obtain ⟨l, hl, he⟩ := hh y hy
        show List.Sublist y.eligiblePlayerIds _
        rw [he]
        exact eligibleAt_mono bettors level l (Nat.le_of_lt (hhead l hl))
      · intro pot hpot
        simp only [List.head?_cons, Option.mem_def, Option.some.injEq] at hpot
        subst hpot
        exact ⟨level, List.mem_cons_self _ _, rfl⟩

theorem eligStrict_not_same (a b : Pot) (h : eligStrict a b) :
    sameEligible a.eligiblePlayerIds b.eligiblePlayerIds = false := by
  cases hs : sameEligible a.eligiblePlayerIds b.eligiblePlayerIds with
  | false => rfl
  | true =>
    exfalso
    have hperm := (sameEligible_iff_perm _ _).1 hs
    have h1 := hperm.length_eq
    have h2 := h.2
    omega

/-- Claim C1: `buildSidePots` conserves chips (the pot amounts sum to the
players' total bets this hand) and, after merging, no two pots in the
returned list have the same eligible-player-id set. -/
theorem C1_buildSidePots_conservation_and_distinct (players : List Player) :
    ((buildSidePots players).map (fun q => q.amount)).sum
        = (players.map (fun p => p.totalBetThisHand)).sum
      ∧ List.Pairwise
          (fun a b => sameEligible a.eligiblePlayerIds b.eligiblePlayerIds = false)
          (buildSidePots players) := by
  unfold buildSidePots
  by_cases hb : (players.filter (fun p => 0 < p.totalBetThisHand)).isEmpty
  · simp only [hb, if_pos]
    constructor
    · simp only [List.map_nil, List.sum_nil]
      symm
      apply List.sum_eq_zero
      intro x hx
      obtain ⟨p, hp, rfl⟩ := List.mem_map.mp hx
      have : p ∉ players.filter (fun p => 0 < p.totalBetThisHand) := by
        rw [List.isEmpty_iff] at hb
        simp [hb]
      by_cases hz : 0 < p.totalBetThisHand
      · exact absurd (List.mem_filter.mpr ⟨hp, by simpa using hz⟩) this
      · omega
    · exact List.Pairwise.nil
  · rw [if_neg hb]
    set bettors := players.filter (fun p => 0 < p.totalBetThisHand) with hbet
    set betLevels :=
      List.insertionSort (· ≤ ·) ((bettors.map (fun p => p.totalBetThisHand)).dedup)
      with hlev
    have hperm : List.Perm betLevels ((bettors.map (fun p => p.totalBetThisHand)).dedup) :=
      List.perm_insertionSort _ _
    have hnodup : betLevels.Nodup :=
      hperm.nodup_iff.mpr (List.nodup_dedup _)
    have hsorted : List.Sorted (· ≤ ·) betLevels := List.sorted_insertionSort _ _
    have hpairlt : List.Pairwise (· < ·) betLevels := hsorted.lt_of_le hnodup
    have hmemlev : ∀ x, x ∈ betLevels ↔ ∃ p ∈ bettors, p.totalBetThisHand = x := by
      intro x
      rw [hperm.mem_iff, List.mem_dedup, List.mem_map]
    constructor
    · rw [mergePots_sum, potLayers_sum bettors betLevels 0 hpairlt]
      · rw [show (bettors.map (fun p => p.totalBetThisHand - 0)) =
              (bettors.map (fun p => p.totalBetThisHand)) by simp]
        exact bettors_sum players
      · intro l hl
        obtain ⟨p, hp, hpe⟩ := (hmemlev l).1 hl
        have := List.mem_filter.mp hp
        simp only [decide_eq_true_eq] at this
        omega
      · intro p hp _
        exact (hmemlev p.totalBetThisHand).2 ⟨p, hp, rfl⟩
    · have hchain := (potLayers_chain bettors betLevels 0 hpairlt).1
      have hmerged : List.Chain' eligStrict (mergePots (potLayers bettors 0 betLevels)) := by
        cases hpl : potLayers bettors 0 betLevels with
        | nil => simp [mergePots]
        | cons p ps =>
          show List.Chain' eligStrict (mergeLoop p ps)
          apply mergeLoop_chain
          rw [hpl] at hchain
          exact hchain
      exact (List.chain'_iff_pairwise.mp hmerged).imp
        (fun h => eligStrict_not_same _ _ h)

-- ── Card adapter lemmas (claim C8) ────────────────────────────────────

theorem triangle_exact (a : Nat) : 2 * (a * (a + 1) / 2) = a * (a + 1) := by
  have h : 2 ∣ a * (a + 1) := (Nat.even_mul_succ_self a).two_dvd
  omega

theorem comboIndex_add (a b : Nat) (hab : a < b) (hb : b < 52) :
    comboIndex a b + a * (a + 1) / 2 + a + 1 = 52 * a + b := by
  simp only [comboIndex]
  rw [show min a b = a by omega, show max a b = b by omega]
  have h1 := triangle_exact a
  have h2 : a * (a + 1) ≤ a * 104 := Nat.mul_le_mul_left a (by omega)
  omega

theorem comboIndex_lt_1326 (a b : Nat) (hab : a < b) (hb : b < 52) :
    comboIndex a b < 1326 := by
  have e := comboIndex_add a b hab hb
  have t := triangle_exact a
  have e' : (comboIndex a b : Int) + ((a * (a + 1) / 2 : Nat) : Int) + a + 1
      = 52 * a + b := by exact_mod_cast e
  have t' : 2 * ((a * (a + 1) / 2 : Nat) : Int) = (a : Int) * (a + 1) := by
    exact_mod_cast t
  have hab' : (a : Int) < b := by exact_mod_cast hab
  have hb' : (b : Int) < 52 := by exact_mod_cast hb
  have hint : 0 ≤ ((50 : Int) - a) * ((51 : Int) - a) :=
    mul_nonneg (by omega) (by omega)
  have hgoal : (comboIndex a b : Int) < 1326 := by nlinarith [e', t', hint]
  exact_mod_cast hgoal

theorem comboIndex_mono (a b c d : Nat) (h1 : a < b) (h2 : b < 52)
    (h3 : c < d) (h4 : d < 52) (h5 : a < c) :
    comboIndex a b < comboIndex c d := by
  have ea := comboIndex_add a b h1 h2
  have ec := comboIndex_add c d h3 h4
  have ta := triangle_exact a
  have tc := triangle_exact c
  have ea' : (comboIndex a b : Int) + ((a * (a + 1) / 2 : Nat) : Int) + a + 1
      = 52 * a + b := by exact_mod_cast ea
  have ec' : (comboIndex c d : Int) + ((c * (c + 1) / 2 : Nat) : Int) + c + 1
      = 52 * c + d := by exact_mod_cast ec
  have ta' : 2 * ((a * (a + 1) / 2 : Nat) : Int) = (a : Int) * (a + 1) := by
    exact_mod_cast ta
  have tc' : 2 * ((c * (c + 1) / 2 : Nat) : Int) = (c : Int) * (c + 1) := by
    exact_mod_cast tc
  have hb1 : (a : Int) < b := by exact_mod_cast h1
  have hb2 : (b : Int) < 52 := by exact_mod_cast h2
  have hb3 : (c : Int) < d := by exact_mod_cast h3
  have hb4 : (d : Int) < 52 := by exact_mod_cast h4
  have hb5 : (a : Int) < c := by exact_mod_cast h5
  have hint1 : 0 ≤ ((c : Int) - a - 1) * ((50 : Int) - c) :=
    mul_nonneg (by omega) (by omega)
  have hint2 : 0 ≤ ((52 : Int) - a) * ((c : Int) - a - 1) :=
    mul_nonneg (by omega) (by omega)
  have hgoal : (comboIndex a b : Int) < comboIndex c d := by
    nlinarith [ea', ec', ta', tc', hint1, hint2]
  exact_mod_cast hgoal

/-- Claim C8: the solver card encoding round-trips on all 52 valid cards,
is a bijection onto `0..51`, and `comboIndex` is symmetric and maps
unordered pairs of distinct card ids injectively into `0..1325`. -/
theorem C8_card_adapter_roundtrip_and_combo_injective :
    (∀ c : Card, 2 ≤ c.rank → c.rank ≤ 14 →
        solverIdToCard (cardToSolverId c) = c ∧ cardToSolverId c < 52)
      ∧ (∀ i : Nat, i < 52 → cardToSolverId (solverIdToCard i) = i)
      ∧ (∀ a b : Nat, comboIndex a b = comboIndex b a)
      ∧ (∀ a b : Nat, a < b → b < 52 → comboIndex a b < 1326)
      ∧ (∀ a b c d : Nat, a < b → b < 52 → c < d → d < 52 →
          comboIndex a b = comboIndex c d → a = c ∧ b = d) := by
  refine ⟨?_, ?_, ?_, ?_, ?_⟩
  · rintro ⟨s, r⟩ h2 h14
    have h2' : 2 ≤ r := h2
    have h14' : r ≤ 14 := h14
    interval_cases r <;> cases s <;> exact ⟨by decide, by decide⟩
  · intro i hi
    interval_cases i <;> decide
  · intro a b
    simp [comboIndex, Nat.min_comm, Nat.max_comm]
  · exact comboIndex_lt_1326
  · intro a b c d h1 h2 h3 h4 heq
    rcases Nat.lt_trichotomy a c with h | h | h
    · exact absurd heq (Nat.ne_of_lt (comboIndex_mono a b c d h1 h2 h3 h4 h))
    · subst h
      refine ⟨rfl, ?_⟩
      have e1 := comboIndex_add a b h1 h2
      have e2 := comboIndex_add a d h3 h4
      omega
    · exact absurd heq.symm (Nat.ne_of_lt (comboIndex_mono c d a b h3 h4 h1 h2 h))

/-- Witness for C8 at concrete inputs. -/
theorem C8_witness :
    ((2 : Nat) ≤ 14 ∧ (14 : Nat) ≤ 14
      ∧ solverIdToCard (cardToSolverId ⟨Suit.spades, 14⟩) = ⟨Suit.spades, 14⟩)
    ∧ ((51 : Nat) < 52 ∧ cardToSolverId (solverIdToCard 51) = 51)
    ∧ comboIndex 3 7 = comboIndex 7 3
    ∧ ((50 : Nat) < 51 ∧ (51 : Nat) < 52 ∧ comboIndex 50 51 < 1326)
    ∧ ((2 : Nat) < 9 ∧ (9 : Nat) < 52
        ∧ (comboIndex 2 9 = comboIndex 2 9 → 2 = 2 ∧ 9 = 9)) := by
  obtain ⟨p1, p2, p3, p4, p5⟩ := C8_card_adapter_roundtrip_and_combo_injective
  exact ⟨⟨by decide, by decide, (p1 ⟨Suit.spades, 14⟩ (by decide) (by decide)).1⟩,
    ⟨by decide, p2 51 (by decide)⟩,
    p3 3 7,
    ⟨by decide, by decide, p4 50 51 (by decide) (by decide)⟩,
    ⟨by decide, by decide, fun h => p5 2 9 2 9 (by decide) (by decide) (by decide) (by decide) h⟩⟩

-- ── Deck lemmas (claim C9) ────────────────────────────────────────────

theorem runOps_isSome (ops : List DeckOp) : ∀ (d : DeckState),
    d.index + ops.length ≤ d.cards.length → (runOps d ops).isSome = true := by
  induction ops with
  | nil => intro d _; rfl
  | cons op rest ih =>
    intro d h
    cases op with
    | draw =>
      have hlt : ¬ d.cards.length ≤ d.index := by simp at h; omega
      simp only [runOps, Deck.draw, if_neg hlt]
      exact ih ⟨d.cards, d.index + 1⟩ (by simp at h ⊢; omega)
    | burn =>
      have hlt : ¬ d.cards.length ≤ d.index := by simp at h; omega
      simp only [runOps, Deck.burn, if_neg hlt]
      exact ih ⟨d.cards, d.index + 1⟩ (by simp at h ⊢; omega)

/-- Claim C9: a full hand with at most `MAX_PLAYERS` players consumes at
most 26 cards, so starting from a full 52-card deck the error branches
of `Deck.draw` and `Deck.burn` are never taken. -/
theorem C9_deck_never_exhausted (cards : List Card) (n : Nat)
    (hcards : cards.length = 52) (hn : n ≤ MAX_PLAYERS) :
    (handDeckOps n).length ≤ 26
      ∧ (runOps ⟨cards, 0⟩ (handDeckOps n)).isSome = true := by
  have hlen : (handDeckOps n).length = 2 * n + 8 := by
    simp [handDeckOps]
  have hbound : (handDeckOps n).length ≤ 26 := by
    rw [hlen]
    have : n ≤ 9 := hn
    omega
  refine ⟨hbound, runOps_isSome _ _ ?_⟩
  simp only [hcards]
  omega

/-- Witness for C9: the actual 52-card deck with the maximum 9 players. -/
theorem C9_witness :
    createFullDeck.length = 52 ∧ (9 : Nat) ≤ MAX_PLAYERS
      ∧ (runOps ⟨createFullDeck, 0⟩ (handDeckOps 9)).isSome = true :=
  ⟨by decide, by decide,
    (C9_deck_never_exhausted createFullDeck 9 (by decide) (by decide)).2⟩

-- ── Betting engine lemmas (claims C3, C6, C7) ─────────────────────────

/-- Claim C7: every RAISE or BET entry that `calculateLegalActions`
offers has `minAmount ≤ maxAmount`. -/
theorem C7_raise_bet_min_le_max (player : Player) (gameState : GameState)
    (a : LegalAction) (ha : a ∈ calculateLegalActions player gameState)
    (ht : a.type = ActionType.RAISE ∨ a.type = ActionType.BET) :
    a.minAmount.getD 0 ≤ a.maxAmount.getD 0 := by
  simp only [calculateLegalActions] at ha
  split_ifs at ha with h1 h2 h3 h4 h5 h6 h7 h8 <;>
    simp only [List.mem_append, List.mem_cons, List.mem_singleton,
      List.not_mem_nil, or_false, false_or] at ha <;>
    rcases ha with rfl | rfl | rfl | ha <;>
    simp_all <;>
    omega

/-- Witness for C7: a state where a RAISE is offered. -/
theorem C7_witness :
    (({ type := ActionType.RAISE, minAmount := some 20, maxAmount := some 100 }
        : LegalAction)
      ∈ calculateLegalActions (mkPlayer 1 0 100 0 0 PlayerStatus.ACTIVE false)
          { gsBase with
            currentBet := 10, lastRaiseIncrement := 10, phase := GamePhase.FLOP })
    ∧ (some (20:Int)).getD 0 ≤ (some (100:Int)).getD 0 := by
  refine ⟨by decide, ?_⟩
  exact C7_raise_bet_min_le_max
    (mkPlayer 1 0 100 0 0 PlayerStatus.ACTIVE false)
    { gsBase with
      currentBet := 10, lastRaiseIncrement := 10, phase := GamePhase.FLOP }
    { type := ActionType.RAISE, minAmount := some 20, maxAmount := some 100 }
    (by decide) (Or.inl rfl)

/-- Counterexample to C3 as stated: with 5 chips facing 10 to call, the
legal-action list also contains FOLD, so ALL_IN is not the only action. -/
theorem C3_counterexample :
    (mkPlayer 1 0 5 0 0 PlayerStatus.ACTIVE false).status = PlayerStatus.ACTIVE
    ∧ 0 < (mkPlayer 1 0 5 0 0 PlayerStatus.ACTIVE false).chips
    ∧ ((mkPlayer 1 0 5 0 0 PlayerStatus.ACTIVE false).chips : Int)
        < ({ gsBase with currentBet := 10, phase := GamePhase.FLOP }.currentBet : Int)
          - ((mkPlayer 1 0 5 0 0 PlayerStatus.ACTIVE false).currentBet : Int)
    ∧ ¬ (∀ a ∈ calculateLegalActions (mkPlayer 1 0 5 0 0 PlayerStatus.ACTIVE false)
            { gsBase with currentBet := 10, phase := GamePhase.FLOP },
          a.type = ActionType.ALL_IN) := by
  refine ⟨by decide, by decide, by decide, ?_⟩
  intro h
  have := h { type := ActionType.FOLD } (by decide)
  exact absurd this (by decide)

/-- Claim C3 amended: when the amount owed exceeds the stack of an ACTIVE
player with chips, the legal actions are exactly FOLD plus the forced
ALL_IN (with min = max = callAmount = the whole stack); ALL_IN is the only
action other than FOLD. -/
theorem C3_amended_fold_and_allin (player : Player) (gameState : GameState)
    (hstatus : player.status = PlayerStatus.ACTIVE) (hchips : 0 < player.chips)
    (howed : (player.chips : Int)
      < (gameState.currentBet : Int) - (player.currentBet : Int)) :
    calculateLegalActions player gameState
      = [{ type := ActionType.FOLD },
         { type := ActionType.ALL_IN, minAmount := some (player.chips : Int),
           maxAmount := some (player.chips : Int),
           callAmount := some (player.chips : Int) }] := by
  have hc : (0:Int) < (player.chips : Int) := by exact_mod_cast hchips
  simp only [calculateLegalActions]
  rw [if_neg (by simp [hstatus]; omega)]
  rw [if_pos (by omega : (0:Int) < (gameState.currentBet : Int) - (player.currentBet : Int))]
  rw [if_neg (by omega :
    ¬ (gameState.currentBet : Int) - (player.currentBet : Int) = 0)]
  rw [if_pos (by omega : (player.chips : Int)
    ≤ (gameState.currentBet : Int) - (player.currentBet : Int))]
  rfl

/-- Witness for the amended C3. -/
theorem C3_witness :
    (mkPlayer 2 0 5 0 0 PlayerStatus.ACTIVE false).status = PlayerStatus.ACTIVE
    ∧ 0 < (mkPlayer 2 0 5 0 0 PlayerStatus.ACTIVE false).chips
    ∧ ((mkPlayer 2 0 5 0 0 PlayerStatus.ACTIVE false).chips : Int)
        < ({ gsBase with currentBet := 12, phase := GamePhase.TURN }.currentBet : Int)
          - ((mkPlayer 2 0 5 0 0 PlayerStatus.ACTIVE false).currentBet : Int)
    ∧ calculateLegalActions (mkPlayer 2 0 5 0 0 PlayerStatus.ACTIVE false)
          { gsBase with currentBet := 12, phase := GamePhase.TURN }
        = [{ type := ActionType.FOLD },
           { type := ActionType.ALL_IN, minAmount := some 5, maxAmount := some 5,
             callAmount := some 5 }] := by
  refine ⟨by decide, by decide, by decide, ?_⟩
  exact C3_amended_fold_and_allin _ _ (by decide) (by decide) (by decide)

/-- Claim C6: `validateAction` is total and never escalates an error:
an illegal requested type silently downgrades to CHECK (when legal) or
FOLD; BET/RAISE amounts are clamped into the legal bounds, and promoted
to ALL_IN of the whole stack when the clamped chip cost reaches it; a
CALL amount is re-derived from the legal action's `callAmount`,
independent of the amount the caller requested. -/
theorem C6_validateAction_clamps_downgrades (action : ActionType × Int)
    (legalActions : List LegalAction) (player : Player) (gameState : GameState) :
    (legalActions.find? (fun a => a.type == action.1) = none →
        ((∃ la ∈ legalActions, la.type = ActionType.CHECK) →
          validateAction action legalActions player gameState = (ActionType.CHECK, 0))
        ∧ ((¬ ∃ la ∈ legalActions, la.type = ActionType.CHECK) →
          validateAction action legalActions player gameState = (ActionType.FOLD, 0)))
    ∧ (∀ legal, legalActions.find? (fun a => a.type == action.1) = some legal →
        (action.1 = ActionType.BET ∨ action.1 = ActionType.RAISE) →
        legal.minAmount.getD 0 ≤ legal.maxAmount.getD 0 →
        ((validateAction action legalActions player gameState).1 = action.1
            ∧ legal.minAmount.getD 0
                ≤ (validateAction action legalActions player gameState).2
            ∧ (validateAction action legalActions player gameState).2
                ≤ legal.maxAmount.getD 0)
          ∨ ((validateAction action legalActions player gameState).1 = ActionType.ALL_IN
            ∧ (validateAction action legalActions player gameState).2
                = (player.chips : Int)))
    ∧ (∀ legal, legalActions.find? (fun a => a.type == action.1) = some legal →
        action.1 = ActionType.BET →
        (player.chips : Int)
            ≤ min (max action.2 (legal.minAmount.getD 0)) (legal.maxAmount.getD 0) →
        validateAction action legalActions player gameState
          = (ActionType.ALL_IN, (player.chips : Int)))
    ∧ (∀ legal, legalActions.find? (fun a => a.type == action.1) = some legal →
        action.1 = ActionType.RAISE →
        (player.chips : Int)
            ≤ min (max action.2 (legal.minAmount.getD 0)) (legal.maxAmount.getD 0)
              - (player.currentBet : Int) →
        validateAction action legalActions player gameState
          = (ActionType.ALL_IN, (player.chips : Int)))
    ∧ (∀ legal amt₁ amt₂,
        legalActions.find? (fun a => a.type == ActionType.CALL) = some legal →
        validateAction (ActionType.CALL, amt₁) legalActions player gameState
            = (ActionType.CALL, legal.callAmount.getD 0)
          ∧ validateAction (ActionType.CALL, amt₁) legalActions player gameState
            = validateAction (ActionType.CALL, amt₂) legalActions player gameState) := by
  obtain ⟨ty, amt⟩ := action
  refine ⟨?_, ?_, ?_, ?_, ?_⟩
  · intro hnone
    constructor
    · rintro ⟨la, hla, hty⟩
      have hne : legalActions.find? (fun a => a.type == ActionType.CHECK) ≠ none := by
        intro hc
        rw [List.find?_eq_none] at hc
        exact absurd (by simp [hty] : (fun a => a.type == ActionType.CHECK) la = true)
          (by simpa using hc la hla)
      obtain ⟨ck, hck⟩ := Option.ne_none_iff_exists'.mp hne
      simp [validateAction, hnone, hck]
    · intro hno
      have hc : legalActions.find? (fun a => a.type == ActionType.CHECK) = none := by
        rw [List.find?_eq_none]
        intro x hx hpx
        exact hno ⟨x, hx, by simpa using hpx⟩
      simp [validateAction, hnone, hc]
  · intro legal hfind hty hminmax
    rcases hty with rfl | rfl
    · simp only [validateAction, hfind]
      by_cases hch : (player.chips : Int)
          ≤ min (max amt (legal.minAmount.getD 0)) (legal.maxAmount.getD 0)
      · rw [if_pos hch]; right; exact ⟨rfl, rfl⟩
      · rw [if_neg hch]; left; refine ⟨rfl, ?_, ?_⟩ <;> omega
    · simp only [validateAction, hfind]
      by_cases hch : (player.chips : Int)
          ≤ min (max amt (legal.minAmount.getD 0)) (legal.maxAmount.getD 0)
            - (player.currentBet : Int)
      · rw [if_pos hch]; right; exact ⟨rfl, rfl⟩
      · rw [if_neg hch]; left; refine ⟨rfl, ?_, ?_⟩ <;> omega
  · intro legal hfind hty hcost
    subst hty
    simp only [validateAction, hfind]
    rw [if_pos hcost]
  · intro legal hfind hty hcost
    subst hty
    simp only [validateAction, hfind]
    rw [if_pos hcost]
  · intro legal amt₁ amt₂ hfind
    simp [validateAction, hfind]

/-- Witness for C6 at concrete inputs: a downgrade to FOLD, a clamped BET,
a promotion to ALL_IN, and a CALL whose amount ignores the request. -/
theorem C6_witness :
    (([] : List LegalAction).find? (fun a => a.type == ActionType.BET) = none
      ∧ validateAction (ActionType.BET, 50) []
          (mkPlayer 3 0 100 0 0 PlayerStatus.ACTIVE false) gsBase
        = (ActionType.FOLD, 0))
    ∧ (validateAction (ActionType.BET, 500)
          [{ type := ActionType.BET, minAmount := some 4, maxAmount := some 100 }]
          (mkPlayer 3 0 200 0 0 PlayerStatus.ACTIVE false) gsBase
        = (ActionType.BET, 100))
    ∧ (validateAction (ActionType.BET, 500)
          [{ type := ActionType.BET, minAmount := some 4, maxAmount := some 100 }]
          (mkPlayer 3 0 50 0 0 PlayerStatus.ACTIVE false) gsBase
        = (ActionType.ALL_IN, 50))
    ∧ (validateAction (ActionType.CALL, 999)
          [{ type := ActionType.CALL, callAmount := some 7 }]
          (mkPlayer 3 0 200 0 0 PlayerStatus.ACTIVE false) gsBase
        = (ActionType.CALL, 7)
      ∧ validateAction (ActionType.CALL, 999)
          [{ type := ActionType.CALL, callAmount := some 7 }]
          (mkPlayer 3 0 200 0 0 PlayerStatus.ACTIVE false) gsBase
        = validateAction (ActionType.CALL, 0)
          [{ type := ActionType.CALL, callAmount := some 7 }]
          (mkPlayer 3 0 200 0 0 PlayerStatus.ACTIVE false) gsBase) := by
  refine ⟨⟨by decide, ?_⟩, ?_, ?_, ?_⟩
  · exact ((C6_validateAction_clamps_downgrades (ActionType.BET, 50) []
      (mkPlayer 3 0 100 0 0 PlayerStatus.ACTIVE false) gsBase).1 (by decide)).2
      (by rintro ⟨la, hla, _⟩; exact absurd hla (List.not_mem_nil la))
  · have h := ((C6_validateAction_clamps_downgrades (ActionType.BET, 500)
      [{ type := ActionType.BET, minAmount := some 4, maxAmount := some 100 }]
      (mkPlayer 3 0 200 0 0 PlayerStatus.ACTIVE false) gsBase).2.1
      { type := ActionType.BET, minAmount := some 4, maxAmount := some 100 }
      (by decide) (Or.inl rfl) (by decide))
    revert h
    decide
  · exact (C6_validateAction_clamps_downgrades (ActionType.BET, 500)
      [{ type := ActionType.BET, minAmount := some 4, maxAmount := some 100 }]
      (mkPlayer 3 0 50 0 0 PlayerStatus.ACTIVE false) gsBase).2.2.1
      { type := ActionType.BET, minAmount := some 4, maxAmount := some 100 }
      (by decide) rfl (by decide)
  · exact ⟨((C6_validateAction_clamps_downgrades (ActionType.CALL, 999)
        [{ type := ActionType.CALL, callAmount := some 7 }]
        (mkPlayer 3 0 200 0 0 PlayerStatus.ACTIVE false) gsBase).2.2.2.2
        { type := ActionType.CALL, callAmount := some 7 } 999 0 (by decide)).1,
      ((C6_validateAction_clamps_downgrades (ActionType.CALL, 999)
        [{ type := ActionType.CALL, callAmount := some 7 }]
        (mkPlayer 3 0 200 0 0 PlayerStatus.ACTIVE false) gsBase).2.2.2.2
        { type := ActionType.CALL, callAmount := some 7 } 999 0 (by decide)).2⟩

-- ── Distribution lemmas (claims C5, C10) ──────────────────────────────

theorem cmpLoop_self (a : List Nat) : ∀ (fuel i : Nat), cmpLoop a a i fuel = 0 := by
  intro fuel
  induction fuel with
  | zero => intro i; rfl
  | succ fuel ih =>
    intro i
    by_cases hi : i = 0 <;> simp [cmpLoop, hi, ih]

theorem compareEvaluatedHands_self (a : EvaluatedHand) :
    compareEvaluatedHands a a = 0 :=
  cmpLoop_self a.values _ 0

theorem bestFoldStep_mem (playerHands : List (Nat × EvaluatedHand)) :
    ∀ (l : List Nat) (b0 : EvaluatedHand),
      l.foldl
        (fun best id =>
          let hand := (playerHands.lookup id).getD defaultHand
          if 0 < compareEvaluatedHands hand best then hand else best) b0
      ∈ b0 :: l.map (fun id => (playerHands.lookup id).getD defaultHand) := by
  intro l
  induction l with
  | nil => intro b0; exact List.mem_cons_self _ _
  | cons x l ih =>
    intro b0
    simp only [List.foldl_cons]
    rcases List.mem_cons.mp
        (ih (if 0 < compareEvaluatedHands ((playerHands.lookup x).getD defaultHand) b0
          then (playerHands.lookup x).getD defaultHand else b0)) with h | h
    · rw [h]
      by_cases hc :
          0 < compareEvaluatedHands ((playerHands.lookup x).getD defaultHand) b0
      · rw [if_pos hc]
        exact List.mem_cons_of_mem _ (by simp)
      · rw [if_neg hc]
        exact List.mem_cons_self _ _
    · exact List.mem_cons_of_mem _ (List.mem_cons_of_mem _ h)

theorem bestHandOf_mem (eligible : List Nat)
    (playerHands : List (Nat × EvaluatedHand)) (hne : eligible ≠ []) :
    bestHandOf eligible playerHands
      ∈ eligible.map (fun id => (playerHands.lookup id).getD defaultHand) := by
  cases eligible with
  | nil => exact absurd rfl hne
  | cons e0 rest =>
    unfold bestHandOf
    have h := bestFoldStep_mem playerHands rest
      ((playerHands.lookup ((e0 :: rest).headD 0)).getD defaultHand)
    simpa using h

theorem tiedWinners_ne_nil (pot : Pot) (playerHands : List (Nat × EvaluatedHand))
    (hne : eligibleWithHands pot playerHands ≠ []) :
    tiedWinners pot playerHands ≠ [] := by
  obtain ⟨id, hid, hbest⟩ :=
    List.mem_map.mp (bestHandOf_mem (eligibleWithHands pot playerHands) playerHands hne)
  intro hcon
  have : id ∈ tiedWinners pot playerHands := by
    unfold tiedWinners
    refine List.mem_filter.mpr ⟨hid, ?_⟩
    simp only [decide_eq_true_eq]
    rw [hbest]
    exact compareEvaluatedHands_self _
  rw [hcon] at this
  exact List.not_mem_nil _ this

theorem sum_map_add_nat {α : Type} (l : List α) (f g : α → Nat) :
    (l.map (fun x => f x + g x)).sum = (l.map f).sum + (l.map g).sum := by
  induction l with
  | nil => rfl
  | cons x l ih => simp [ih]; omega

theorem sum_map_const_nat {α : Type} (l : List α) (c : Nat) :
    (l.map (fun _ => c)).sum = l.length * c := by
  induction l with
  | nil => simp
  | cons x l ih => simp [ih, Nat.succ_mul]; omega

theorem sum_range_ite (r : Nat) : ∀ (m : Nat),
    ((List.range m).map (fun i => if i < r then 1 else 0)).sum = min r m := by
  intro m
  induction m with
  | zero => simp
  | succ m ih =>
    rw [List.range_succ, List.map_append, List.sum_append, ih]
    by_cases h : m < r <;> simp [h] <;> omega

theorem enum_sum_fst {α : Type} (l : List α) (g : Nat → Nat) :
    ((l.enum).map (fun iw => g iw.1)).sum = ((List.range l.length).map g).sum := by
  have h1 : (l.enum.map fun iw => g iw.1) = (l.enum.map Prod.fst).map g := by
    rw [List.map_map]; rfl
  rw [h1, List.enum_map_fst]

theorem settlePot_sum (potIndex : Nat) (pot : Pot)
    (playerHands : List (Nat × EvaluatedHand)) (players : List Player)
    (dealerIndex : Nat) (hne : pot.eligiblePlayerIds ≠ []) :
    ((settlePot potIndex pot playerHands players dealerIndex).map
        (fun w => w.amount)).sum = pot.amount := by
  unfold settlePot
  by_cases h0 : (eligibleWithHands pot playerHands).length = 0
  · rw [if_pos h0]
    cases hc : pot.eligiblePlayerIds with
    | nil => exact absurd hc hne
    | cons f r => simp
  · rw [if_neg h0]
    by_cases h1 : (eligibleWithHands pot playerHands).length = 1
    · rw [if_pos h1]; simp
    · rw [if_neg h1]
      by_cases hw1 : (tiedWinners pot playerHands).length = 1
      · rw [if_pos hw1]; simp
      · rw [if_neg hw1]
        have hwn : tiedWinners pot playerHands ≠ [] :=
          tiedWinners_ne_nil pot playerHands
            (by intro hc; rw [hc] at h0; exact h0 rfl)
        have hn2 : 2 ≤ (tiedWinners pot playerHands).length := by
          cases hlen : (tiedWinners pot playerHands).length with
          | zero => exact absurd (List.length_eq_zero.mp hlen) hwn
          | succ n =>
            cases n with
            | zero => exact absurd hlen hw1
            | succ m => omega
        set n := (tiedWinners pot playerHands).length with hvn
        set share := pot.amount / n with hvs
        set remainder := pot.amount - share * n with hvr
        have hslen : (sortByPositionFromDealer (tiedWinners pot playerHands)
            players dealerIndex).length = n := by
          unfold sortByPositionFromDealer
          exact (List.perm_insertionSort _ _).length_eq
        rw [List.map_map]
        have hfun : ((fun w => WinnerInfo.amount w) ∘
            (fun iw : Nat × Nat =>
              ({ playerId := iw.2, playerName := playerNameOf players iw.2,
                 amount := share + (if iw.1 < remainder then 1 else 0),
                 potIndex := potIndex,
                 hand := playerHands.lookup iw.2 } : WinnerInfo)))
            = fun iw : Nat × Nat => share + (if iw.1 < remainder then 1 else 0) := rfl
        rw [hfun]
        rw [show (fun iw : Nat × Nat => share + (if iw.1 < remainder then 1 else 0))
            = (fun iw : Nat × Nat =>
                (fun i => share + (if i < remainder then 1 else 0)) iw.1) from rfl]
        rw [enum_sum_fst
          (sortByPositionFromDealer (tiedWinners pot playerHands) players dealerIndex)
          (fun i => share + (if i < remainder then 1 else 0))]
        rw [hslen]
        have hsplit : ((List.range n).map
            (fun i => share + (if i < remainder then 1 else 0))).sum
            = ((List.range n).map (fun _ => share)).sum
              + ((List.range n).map (fun i => if i < remainder then 1 else 0)).sum :=
          sum_map_add_nat (List.range n) (fun _ => share) (fun i => if i < remainder then 1 else 0)
        rw [hsplit, sum_map_const_nat, sum_range_ite, List.length_range]
        have hdm : pot.amount / n * n + pot.amount % n = pot.amount :=
          Nat.div_add_mod' pot.amount n
        have hcomm : n * share = share * n := Nat.mul_comm n share
        have hdm2 : share * n + pot.amount % n = pot.amount := by
          rw [hvs]; exact hdm
        have hrem : remainder = pot.amount % n := by omega
        rw [hrem]
        have hmod : pot.amount % n < n := Nat.mod_lt _ (by omega)
        have hmin : min (pot.amount % n) n = pot.amount % n := by omega
        rw [hmin]
        omega

theorem enumFrom_settle_sum (playerHands : List (Nat × EvaluatedHand))
    (players : List Player) (dealerIndex : Nat) :
    ∀ (pots : List Pot) (k : Nat),
      (∀ pot ∈ pots, pot.eligiblePlayerIds ≠ []) →
      (((pots.enumFrom k).flatMap
          (fun pi => settlePot pi.1 pi.2 playerHands players dealerIndex)).map
        (fun w => w.amount)).sum
      = (pots.map (fun q => q.amount)).sum := by
  intro pots
  induction pots with
  | nil => intro k _; rfl
  | cons p ps ih =>
    intro k hall
    show ((((k, p) :: ps.enumFrom (k + 1)).flatMap
        (fun pi => settlePot pi.1 pi.2 playerHands players dealerIndex)).map
      (fun w => w.amount)).sum = _
    rw [List.flatMap_cons, List.map_append, List.sum_append]
    rw [settlePot_sum k p playerHands players dealerIndex
      (hall p (List.mem_cons_self _ _))]
    rw [ih (k + 1) (fun q hq => hall q (List.mem_cons_of_mem _ hq))]
    simp

/-- Claim C10: `distributePots` conserves chips whenever every pot has a
non-empty eligible set: the winner amounts sum to the pot amounts. -/
theorem C10_distributePots_conserves_chips (pots : List Pot)
    (playerHands : List (Nat × EvaluatedHand)) (players : List Player)
    (dealerIndex : Nat)
    (hne : ∀ pot ∈ pots, pot.eligiblePlayerIds ≠ []) :
    ((distributePots pots playerHands players dealerIndex).map
        (fun w => w.amount)).sum
      = (pots.map (fun q => q.amount)).sum := by
  unfold distributePots
  exact enumFrom_settle_sum playerHands players dealerIndex pots 0 hne

/-- Witness for C10: two pots (one settled by the degenerate first-eligible
fallback) conserving 101 + 3 = 104 chips. -/
theorem C10_witness :
    (∀ pot ∈ [(⟨101, [1, 2]⟩ : Pot), ⟨3, [5]⟩], pot.eligiblePlayerIds ≠ [])
    ∧ ((distributePots [⟨101, [1, 2]⟩, ⟨3, [5]⟩]
          [(1, pairOfNines), (2, pairOfNines)]
          [mkPlayer 1 0 0 0 0 PlayerStatus.ACTIVE false,
           mkPlayer 2 1 0 0 0 PlayerStatus.ACTIVE false] 0).map
        (fun w => w.amount)).sum
      = (([(⟨101, [1, 2]⟩ : Pot), ⟨3, [5]⟩]).map (fun q => q.amount)).sum := by
  refine ⟨by decide, ?_⟩
  exact C10_distributePots_conserves_chips _ _ _ _ (by decide)

/-- Claim C5: when a pot is split among `n ≥ 2` tied winners, the result
for that pot is exactly the winners sorted by seat proximity left of the
dealer, each receiving `⌊amount/n⌋`, with one extra chip for the first
`amount % n` of them. -/
theorem C5_distributePots_split_floor_odd_chip (pot : Pot)
    (playerHands : List (Nat × EvaluatedHand)) (players : List Player)
    (dealerIndex : Nat) (hw : 2 ≤ (tiedWinners pot playerHands).length) :
    distributePots [pot] playerHands players dealerIndex
      = ((sortByPositionFromDealer (tiedWinners pot playerHands) players
            dealerIndex).enum).map
          (fun iw =>
            { playerId := iw.2, playerName := playerNameOf players iw.2,
              amount := pot.amount / (tiedWinners pot playerHands).length
                + (if iw.1 < pot.amount % (tiedWinners pot playerHands).length
                   then 1 else 0),
              potIndex := 0, hand := playerHands.lookup iw.2 }) := by
  have hle : (tiedWinners pot playerHands).length
      ≤ (eligibleWithHands pot playerHands).length := by
    unfold tiedWinners
    exact List.length_filter_le _ _
  have hel : 2 ≤ (eligibleWithHands pot playerHands).length := le_trans hw hle
  unfold distributePots
  show settlePot 0 pot playerHands players dealerIndex ++ [] = _
  rw [List.append_nil]
  simp only [settlePot]
  rw [if_neg (by omega), if_neg (by omega), if_neg (by omega)]
  set n := (tiedWinners pot playerHands).length with hvn
  have hdm : pot.amount / n * n + pot.amount % n = pot.amount :=
    Nat.div_add_mod' pot.amount n
  have hrem : pot.amount - pot.amount / n * n = pot.amount % n := by omega
  rw [hrem]

/-- Witness for C5: a 101-chip pot split between two tied winners, dealer
at seat 0; the winner at seat 1 (immediately left of the dealer) gets 51
and the other winner gets 50. -/
theorem C5_witness :
    2 ≤ (tiedWinners ⟨101, [1, 2]⟩ [(1, pairOfNines), (2, pairOfNines)]).length
    ∧ distributePots [⟨101, [1, 2]⟩] [(1, pairOfNines), (2, pairOfNines)]
        [mkPlayer 1 0 0 0 0 PlayerStatus.ACTIVE false,
         mkPlayer 2 1 0 0 0 PlayerStatus.ACTIVE false] 0
      = [{ playerId := 2, playerName := "P2", amount := 51, potIndex := 0,
           hand := some pairOfNines },
         { playerId := 1, playerName := "P1", amount := 50, potIndex := 0,
           hand := some pairOfNines }] := by
  refine ⟨by decide, ?_⟩
  rw [C5_distributePots_split_floor_odd_chip _ _ _ _ (by decide)]
  decide

/-- Counterexample to C4 as stated: after the incomplete all-in raise,
player 1 — ACTIVE, already acted at the prior bet level of 10 — is
nevertheless returned by `findNextToAct` as the next player to act. -/
theorem C4_counterexample :
    (gsC4.currentBet
        < (actorOf gsC4 3).currentBet + (actorOf gsC4 3).chips
      ∧ (actorOf gsC4 3).currentBet + (actorOf gsC4 3).chips - gsC4.currentBet
        < gsC4.lastRaiseIncrement)
    ∧ (actorOf gsC4 1).hasActedThisRound = true
    ∧ (actorOf gsC4 1).currentBet = gsC4.currentBet
    ∧ (actorOf gsC4after 1).hasActedThisRound = true
    ∧ findNextToAct gsC4after [1, 2, 3] 0 = some (1, 0) := by decide

theorem flags_map_single (players : List Player) (pid : Nat) :
    (updatePlayer players pid (fun p => { p with hasActedThisRound := true })).map
      (fun p => (p.id, p.hasActedThisRound))
      = players.map
          (fun p => (p.id, if p.id = pid then true else p.hasActedThisRound)) := by
  unfold updatePlayer
  rw [List.map_map]
  apply List.map_congr_left
  intro p _
  by_cases hp : p.id = pid
  · simp [Function.comp, hp]
  · simp [Function.comp, hp]

theorem flags_map_no_reopen (players : List Player) (pid : Nat) (f : Player → Player)
    (hid : ∀ p, (f p).id = p.id)
    (hacted : ∀ p, (f p).hasActedThisRound = p.hasActedThisRound) :
    (updatePlayer (updatePlayer players pid f) pid
        (fun p => { p with hasActedThisRound := true })).map
      (fun p => (p.id, p.hasActedThisRound))
      = players.map
          (fun p => (p.id, if p.id = pid then true else p.hasActedThisRound)) := by
  unfold updatePlayer
  rw [List.map_map, List.map_map]
  apply List.map_congr_left
  intro p _
  by_cases hp : p.id = pid
  · simp [Function.comp, hp, hid p]
  · simp [Function.comp, hp]

theorem flags_map_reopen (players : List Player) (pid : Nat) (f : Player → Player)
    (hid : ∀ p, (f p).id = p.id) :
    (updatePlayer (reopenAction (updatePlayer players pid f) pid) pid
        (fun p => { p with hasActedThisRound := true })).map
      (fun p => (p.id, p.hasActedThisRound))
      = players.map
          (fun p => (p.id,
            if p.id = pid then true
            else if p.status = PlayerStatus.ACTIVE then false
            else p.hasActedThisRound)) := by
  unfold updatePlayer reopenAction
  rw [List.map_map, List.map_map, List.map_map]
  apply List.map_congr_left
  intro p _
  by_cases hp : p.id = pid
  · simp [Function.comp, hp, hid p]
  · by_cases hs : p.status = PlayerStatus.ACTIVE
    · simp [Function.comp, hp, hs]
    · simp [Function.comp, hp, hs]

/-- Claim C4 amended: an incomplete all-in raise (raise increment below
`lastRaiseIncrement`) does not clear any other player's acted-flag; a
bet, a raise, or a full all-in raise clears every other ACTIVE player's
acted-flag; a call, check or fold clears nobody's. However, the
incomplete all-in still raises `currentBet`, and `findNextToAct` selects
any ACTIVE player whose street bet is below the current bet even if that
player has already acted — so such players are still given a turn to
respond (they just cannot have been "reopened" by the flags). -/
theorem C4_amended_incomplete_allin_no_reopen (gs : GameState) (pid : Nat)
    (amt : Nat) :
    ((gs.currentBet < (actorOf gs pid).currentBet + (actorOf gs pid).chips →
      (actorOf gs pid).currentBet + (actorOf gs pid).chips - gs.currentBet
          < gs.lastRaiseIncrement →
      (applyAction gs pid (ActionType.ALL_IN, amt)).players.map
          (fun p => (p.id, p.hasActedThisRound))
        = gs.players.map
            (fun p => (p.id, if p.id = pid then true else p.hasActedThisRound))))
    ∧ (∀ ty, ty = ActionType.BET ∨ ty = ActionType.RAISE →
        (applyAction gs pid (ty, amt)).players.map
            (fun p => (p.id, p.hasActedThisRound))
          = gs.players.map
              (fun p => (p.id,
                if p.id = pid then true
                else if p.status = PlayerStatus.ACTIVE then false
                else p.hasActedThisRound)))
    ∧ (gs.currentBet < (actorOf gs pid).currentBet + (actorOf gs pid).chips →
        gs.lastRaiseIncrement
            ≤ (actorOf gs pid).currentBet + (actorOf gs pid).chips - gs.currentBet →
        (applyAction gs pid (ActionType.ALL_IN, amt)).players.map
            (fun p => (p.id, p.hasActedThisRound))
          = gs.players.map
              (fun p => (p.id,
                if p.id = pid then true
                else if p.status = PlayerStatus.ACTIVE then false
                else p.hasActedThisRound)))
    ∧ (∀ ty, ty = ActionType.CALL ∨ ty = ActionType.CHECK ∨ ty = ActionType.FOLD →
        (applyAction gs pid (ty, amt)).players.map
            (fun p => (p.id, p.hasActedThisRound))
          = gs.players.map
              (fun p => (p.id, if p.id = pid then true else p.hasActedThisRound)))
    ∧ (∀ (actingOrder : List Nat) (startFrom : Nat) (pid' idx : Nat),
        findNextToAct gs actingOrder startFrom = some (pid', idx) →
        (actorOf gs pid').status = PlayerStatus.ACTIVE
          ∧ ((actorOf gs pid').hasActedThisRound = false
              ∨ (actorOf gs pid').currentBet < gs.currentBet)) := by
  refine ⟨?_, ?_, ?_, ?_, ?_⟩
  · intro hover hinc
    simp only [applyAction]
    rw [if_pos hover, if_neg (by omega)]
    exact flags_map_no_reopen gs.players pid _
      (fun p => by simp [placeBet]) (fun p => by simp [placeBet])
  · rintro ty (rfl | rfl)
    · simp only [applyAction]
      exact flags_map_reopen gs.players pid _ (fun p => by simp [placeBet])
    · simp only [applyAction]
      exact flags_map_reopen gs.players pid _ (fun p => by simp [placeBet])
  · intro hover hfull
    simp only [applyAction]
    rw [if_pos hover, if_pos hfull]
    exact flags_map_reopen gs.players pid _ (fun p => by simp [placeBet])
  · rintro ty (rfl | rfl | rfl)
    · simp only [applyAction]
      exact flags_map_no_reopen gs.players pid _
        (fun p => by simp [placeBet]) (fun p => by simp [placeBet])
    · simp only [applyAction]
      exact flags_map_single gs.players pid
    · simp only [applyAction]
      exact flags_map_no_reopen gs.players pid _
        (fun p => rfl) (fun p => rfl)
  · intro actingOrder startFrom pid' idx hfind
    unfold findNextToAct at hfind
    obtain ⟨i, _, hi⟩ := List.exists_of_findSome?_eq_some hfind
    by_cases hc : (actorOf gs
        (actingOrder.getD ((startFrom + i) % actingOrder.length) 0)).status
          = PlayerStatus.ACTIVE
        ∧ ((actorOf gs
            (actingOrder.getD ((startFrom + i) % actingOrder.length) 0)).hasActedThisRound
              = false
          ∨ (actorOf gs
              (actingOrder.getD ((startFrom + i) % actingOrder.length) 0)).currentBet
              < gs.currentBet)
    · rw [if_pos hc] at hi
      injection hi with hi
      injection hi with h1 h2
      subst h1
      exact hc
    · rw [if_neg hc] at hi
      exact absurd hi (by simp)

/-- Witness for the amended C4 at the concrete three-handed state: the
incomplete all-in by player 3 leaves players 1 and 2 marked as having
acted. -/
theorem C4_witness :
    (gsC4.currentBet < (actorOf gsC4 3).currentBet + (actorOf gsC4 3).chips
      ∧ (actorOf gsC4 3).currentBet + (actorOf gsC4 3).chips - gsC4.currentBet
        < gsC4.lastRaiseIncrement)
    ∧ (applyAction gsC4 3 (ActionType.ALL_IN, 15)).players.map
        (fun p => (p.id, p.hasActedThisRound))
      = gsC4.players.map
          (fun p => (p.id, if p.id = 3 then true else p.hasActedThisRound)) :=
  ⟨⟨by decide, by decide⟩,
    (C4_amended_incomplete_allin_no_reopen gsC4 3 15).1 (by decide) (by decide)⟩

-- ── Comparator lemmas (claim C2) ──────────────────────────────────────

theorem cmpLoop_zero_of_le (a b : List Nat) : ∀ (fuel i : Nat),
    a.length ≤ i → b.length ≤ i → cmpLoop a b i fuel = 0 := by
  intro fuel
  induction fuel with
  | zero => intro i _ _; rfl
  | succ fuel ih =>
    intro i ha hb
    have hga : a.getD i 0 = 0 := by rw [List.getD_eq_default]; exact ha
    have hgb : b.getD i 0 = 0 := by rw [List.getD_eq_default]; exact hb
    simp only [cmpLoop, hga, hgb]
    rw [ite_self]
    exact ih (i + 1) (by omega) (by omega)

theorem cmpLoop_fuel_ext (a b : List Nat) : ∀ (f1 f2 i : Nat),
    a.length ≤ i + f1 → b.length ≤ i + f1 →
    a.length ≤ i + f2 → b.length ≤ i + f2 →
    cmpLoop a b i f1 = cmpLoop a b i f2 := by
  intro f1
  induction f1 with
  | zero =>
    intro f2 i ha1 hb1 _ _
    show (0 : Int) = cmpLoop a b i f2
    exact (cmpLoop_zero_of_le a b f2 i (by omega) (by omega)).symm
  | succ f1 ih =>
    intro f2 i ha1 hb1 ha2 hb2
    cases f2 with
    | zero =>
      show cmpLoop a b i (f1 + 1) = (0 : Int)
      exact cmpLoop_zero_of_le a b (f1 + 1) i (by omega) (by omega)
    | succ f2 =>
      show cmpLoop a b i (f1 + 1) = cmpLoop a b i (f2 + 1)
      simp only [cmpLoop]
      by_cases hi : i = 0
      · rw [if_pos hi, if_pos hi]
        by_cases hne : a.getD i 0 ≠ b.getD i 0
        · rw [if_pos hne, if_pos hne]
        · rw [if_neg hne, if_neg hne]
          exact ih f2 (i + 1) (by omega) (by omega) (by omega) (by omega)
      · rw [if_neg hi, if_neg hi]
        by_cases hne : a.getD i 0 ≠ b.getD i 0
        · rw [if_pos hne, if_pos hne]
        · rw [if_neg hne, if_neg hne]
          exact ih f2 (i + 1) (by omega) (by omega) (by omega) (by omega)

theorem cmpLoop_neg (a b : List Nat) : ∀ (fuel i : Nat),
    cmpLoop a b i fuel = - cmpLoop b a i fuel := by
  intro fuel
  induction fuel with
  | zero => intro i; rfl
  | succ fuel ih =>
    intro i
    simp only [cmpLoop]
    by_cases hi : i = 0
    · rw [if_pos hi, if_pos hi]
      by_cases hne : a.getD i 0 ≠ b.getD i 0
      · rw [if_pos hne, if_pos (by omega : b.getD i 0 ≠ a.getD i 0)]
        omega
      · rw [if_neg hne, if_neg (by omega : ¬ b.getD i 0 ≠ a.getD i 0)]
        exact ih (i + 1)
    · rw [if_neg hi, if_neg hi]
      by_cases hne : a.getD i 0 ≠ b.getD i 0
      · rw [if_pos hne, if_pos (by omega : b.getD i 0 ≠ a.getD i 0)]
        omega
      · rw [if_neg hne, if_neg (by omega : ¬ b.getD i 0 ≠ a.getD i 0)]
        exact ih (i + 1)

theorem cmpLoop_trans_nonneg (a b c : List Nat) : ∀ (fuel i : Nat),
    0 ≤ cmpLoop a b i fuel → 0 ≤ cmpLoop b c i fuel →
    0 ≤ cmpLoop a c i fuel := by
  intro fuel
  induction fuel with
  | zero => intro i _ _; exact le_refl 0
  | succ fuel ih =>
    intro i hab hbc
    simp only [cmpLoop] at hab hbc ⊢
    by_cases hi : i = 0
    · rw [if_pos hi] at hab hbc ⊢
      by_cases h1 : a.getD i 0 ≠ b.getD i 0
      · rw [if_pos h1] at hab
        by_cases h2 : b.getD i 0 ≠ c.getD i 0
        · rw [if_pos h2] at hbc
          rw [if_pos (by omega : a.getD i 0 ≠ c.getD i 0)]
          omega
        · rw [if_neg h2] at hbc
          rw [if_pos (by omega : a.getD i 0 ≠ c.getD i 0)]
          omega
      · rw [if_neg h1] at hab
        by_cases h2 : b.getD i 0 ≠ c.getD i 0
        · rw [if_pos h2] at hbc
          rw [if_pos (by omega : a.getD i 0 ≠ c.getD i 0)]
          omega
        · rw [if_neg h2] at hbc
          rw [if_neg (by omega : ¬ a.getD i 0 ≠ c.getD i 0)]
          exact ih (i + 1) hab hbc
    · rw [if_neg hi] at hab hbc ⊢
      by_cases h1 : a.getD i 0 ≠ b.getD i 0
      · rw [if_pos h1] at hab
        by_cases h2 : b.getD i 0 ≠ c.getD i 0
        · rw [if_pos h2] at hbc
          rw [if_pos (by omega : a.getD i 0 ≠ c.getD i 0)]
          omega
        · rw [if_neg h2] at hbc
          rw [if_pos (by omega : a.getD i 0 ≠ c.getD i 0)]
          omega
      · rw [if_neg h1] at hab
        by_cases h2 : b.getD i 0 ≠ c.getD i 0
        · rw [if_pos h2] at hbc
          rw [if_pos (by omega : a.getD i 0 ≠ c.getD i 0)]
          omega
        · rw [if_neg h2] at hbc
          rw [if_neg (by omega : ¬ a.getD i 0 ≠ c.getD i 0)]
          exact ih (i + 1) hab hbc

theorem compare_trans_nonneg (x y z : EvaluatedHand)
    (h1 : 0 ≤ compareEvaluatedHands x y) (h2 : 0 ≤ compareEvaluatedHands y z) :
    0 ≤ compareEvaluatedHands x z := by
  unfold compareEvaluatedHands at h1 h2 ⊢
  rw [cmpLoop_fuel_ext x.values y.values _
    (max (max x.values.length y.values.length) z.values.length) 0
    (by omega) (by omega) (by omega) (by omega)] at h1
  rw [cmpLoop_fuel_ext y.values z.values _
    (max (max x.values.length y.values.length) z.values.length) 0
    (by omega) (by omega) (by omega) (by omega)] at h2
  rw [cmpLoop_fuel_ext x.values z.values _
    (max (max x.values.length y.values.length) z.values.length) 0
    (by omega) (by omega) (by omega) (by omega)]
  exact cmpLoop_trans_nonneg x.values y.values z.values _ 0 h1 h2

theorem compare_neg (x y : EvaluatedHand) :
    compareEvaluatedHands x y = - compareEvaluatedHands y x := by
  unfold compareEvaluatedHands
  rw [Nat.max_comm y.values.length x.values.length]
  exact cmpLoop_neg x.values y.values _ 0

theorem compare_self_eq_zero (x : EvaluatedHand) :
    compareEvaluatedHands x x = 0 :=
  cmpLoop_self x.values _ 0

theorem foldSome_spec (es : List EvaluatedHand) : ∀ (b : EvaluatedHand),
    ∃ r, es.foldl evalStep (some b) = some r ∧ (r = b ∨ r ∈ es)
      ∧ 0 ≤ compareEvaluatedHands r b
      ∧ ∀ e ∈ es, 0 ≤ compareEvaluatedHands r e := by
  induction es with
  | nil =>
    intro b
    refine ⟨b, rfl, Or.inl rfl, ?_, by simp⟩
    rw [compare_self_eq_zero]
  | cons e es ih =>
    intro b
    by_cases hc : 0 < compareEvaluatedHands e b
    · obtain ⟨r, hr, hmem, hrb, hall⟩ := ih e
      refine ⟨r, ?_, ?_, ?_, ?_⟩
      · simp only [List.foldl_cons, evalStep, if_pos hc]
        exact hr
      · rcases hmem with rfl | h
        · exact Or.inr (List.mem_cons_self _ _)
        · exact Or.inr (List.mem_cons_of_mem _ h)
      · exact compare_trans_nonneg r e b hrb (by omega)
      · intro x hx
        rcases List.mem_cons.mp hx with rfl | h
        · exact hrb
        · exact hall x h
    · obtain ⟨r, hr, hmem, hrb, hall⟩ := ih b
      refine ⟨r, ?_, ?_, hrb, ?_⟩
      · simp only [List.foldl_cons, evalStep, if_neg hc]
        exact hr
      · rcases hmem with rfl | h
        · exact Or.inl rfl
        · exact Or.inr (List.mem_cons_of_mem _ h)
      · intro x hx
        rcases List.mem_cons.mp hx with rfl | h
        · have hbe : 0 ≤ compareEvaluatedHands b x := by
            rw [compare_neg]; omega
          exact compare_trans_nonneg r b x hrb hbe
        · exact hall x h

theorem foldNone_spec (es : List EvaluatedHand) (hne : es ≠ []) :
    ∃ r, es.foldl evalStep none = some r ∧ r ∈ es
      ∧ ∀ e ∈ es, 0 ≤ compareEvaluatedHands r e := by
  cases es with
  | nil => exact absurd rfl hne
  | cons e es =>
    obtain ⟨r, hr, hmem, hrb, hall⟩ := foldSome_spec es e
    refine ⟨r, ?_, ?_, ?_⟩
    · simp only [List.foldl_cons, evalStep]
      exact hr
    · rcases hmem with rfl | h
      · exact List.mem_cons_self _ _
      · exact List.mem_cons_of_mem _ h
    · intro x hx
      rcases List.mem_cons.mp hx with rfl | h
      · exact hrb
      · exact hall x h

-- ── Index-combination bridge (claim C2) ───────────────────────────────

theorem backtrack_sound (l : List Card) : ∀ (k start : Nat) (c : List Nat),
    c ∈ backtrack l.length start k →
    (c.map (fun i => l.getD i defaultCard)).length = k
      ∧ List.Sublist (c.map (fun i => l.getD i defaultCard)) (l.drop start) := by
  intro k
  induction k with
  | zero =>
    intro start c hc
    simp only [backtrack, List.mem_singleton] at hc
    subst hc
    exact ⟨rfl, List.nil_sublist _⟩
  | succ k ih =>
    intro start c hc
    simp only [backtrack, List.mem_flatMap, List.mem_map] at hc
    obtain ⟨i, hi, c', hc', rfl⟩ := hc
    obtain ⟨h1, h2⟩ := List.mem_range'_1.mp hi
    have hin : i < l.length := by omega
    obtain ⟨hlen', hsub'⟩ := ih (i + 1) c' hc'
    refine ⟨by simpa using hlen', ?_⟩
    show List.Sublist (l.getD i defaultCard :: c'.map (fun j => l.getD j defaultCard))
      (l.drop start)
    have hgetD := List.getD_eq_getElem l defaultCard hin
    have step1 : List.Sublist
        (l.getD i defaultCard :: c'.map (fun j => l.getD j defaultCard)) (l.drop i) := by
      rw [List.drop_eq_getElem_cons hin, hgetD]
      exact List.Sublist.cons₂ _ hsub'
    have step2 : List.Sublist (l.drop i) (l.drop start) := by
      have hdd : l.drop i = (l.drop start).drop (i - start) := by
        rw [List.drop_drop]
        congr 1
        omega
      rw [hdd]
      exact List.drop_sublist _ _
    exact step1.trans step2

theorem sublist_drop_decomp (l : List Card) : ∀ (d start : Nat),
    l.length - start ≤ d →
    ∀ (x : Card) (s' : List Card), List.Sublist (x :: s') (l.drop start) →
    ∃ i, start ≤ i ∧ i < l.length ∧ x = l.getD i defaultCard
      ∧ List.Sublist s' (l.drop (i + 1)) := by
  intro d
  induction d with
  | zero =>
    intro start hd x s' hsub
    rw [List.drop_eq_nil_of_le (by omega)] at hsub
    exact absurd (List.sublist_nil.mp hsub) (by simp)
  | succ d ih =>
    intro start hd x s' hsub
    by_cases hs : l.length ≤ start
    · rw [List.drop_eq_nil_of_le hs] at hsub
      exact absurd (List.sublist_nil.mp hsub) (by simp)
    · have hlt : start < l.length := by omega
      rw [List.drop_eq_getElem_cons hlt] at hsub
      cases hsub with
      | cons _ h =>
        obtain ⟨i, hi1, hi2, hi3, hi4⟩ := ih (start + 1) (by omega) x s' h
        exact ⟨i, by omega, hi2, hi3, hi4⟩
      | cons₂ _ h =>
        exact ⟨start, le_refl _, hlt,
          (List.getD_eq_getElem l defaultCard hlt).symm, h⟩

theorem backtrack_complete (l : List Card) : ∀ (k : Nat) (s : List Card)
    (start : Nat), List.Sublist s (l.drop start) → s.length = k →
    ∃ c ∈ backtrack l.length start k,
      s = c.map (fun i => l.getD i defaultCard) := by
  intro k
  induction k with
  | zero =>
    intro s start hsub hlen
    have hnil : s = [] := List.length_eq_zero.mp hlen
    subst hnil
    exact ⟨[], by simp [backtrack], by simp⟩
  | succ k ih =>
    intro s start hsub hlen
    cases s with
    | nil => simp at hlen
    | cons x s' =>
      obtain ⟨i, hi1, hi2, hi3, hi4⟩ :=
        sublist_drop_decomp l (l.length - start) start (le_refl _) x s' hsub
      obtain ⟨c', hc', hs'⟩ := ih s' (i + 1) hi4 (by simpa using hlen)
      refine ⟨i :: c', ?_, ?_⟩
      · simp only [backtrack, List.mem_flatMap, List.mem_map]
        exact ⟨i, List.mem_range'_1.mpr ⟨hi1, by omega⟩, c', hc', rfl⟩
      · simp only [List.map_cons]
        rw [← hi3, ← hs']

-- ── The wheel and the best-hand theorem (claim C2) ────────────────────

theorem evaluateFiveCards_wheel (s : List Card)
    (hperm : List.Perm (s.map (fun c => c.rank)) [14, 5, 4, 3, 2])
    (hsuits : ∃ c1 ∈ s, ∃ c2 ∈ s, c1.suit ≠ c2.suit) :
    (evaluateFiveCards s).rank = HandRank.STRAIGHT
      ∧ (evaluateFiveCards s).values = [HandRank.STRAIGHT, 5] := by
  have hranks : List.insertionSort (· ≥ ·) (s.map (fun c => c.rank))
      = [14, 5, 4, 3, 2] :=
    List.eq_of_perm_of_sorted ((List.perm_insertionSort _ _).trans hperm)
      (List.sorted_insertionSort _ _) (by decide)
  have hflush : (s.map (fun c => c.suit)).all
      (fun x => x == (s.map (fun c => c.suit)).getD 0 defaultCard.suit) = false := by
    obtain ⟨c1, hc1, c2, hc2, hne⟩ := hsuits
    cases hb : (s.map (fun c => c.suit)).all
        (fun x => x == (s.map (fun c => c.suit)).getD 0 defaultCard.suit) with
    | false => rfl
    | true =>
      exfalso
      have hall := List.all_eq_true.mp hb
      have h1 := hall c1.suit (List.mem_map.mpr ⟨c1, hc1, rfl⟩)
      have h2 := hall c2.suit (List.mem_map.mpr ⟨c2, hc2, rfl⟩)
      simp only [beq_iff_eq] at h1 h2
      exact hne (h1.trans h2.symm)
  have hshc : getStraightHighCard [14, 5, 4, 3, 2] = 5 := by decide
  simp only [evaluateFiveCards]
  rw [hranks, hflush, hshc]
  rw [if_neg (by simp)]
  rw [if_neg (by decide), if_neg (by decide)]
  rw [if_neg (by simp)]
  rw [if_pos (by decide)]
  exact ⟨rfl, rfl⟩

/-- Claim C2: for 2 hole cards and 3–5 community cards, `evaluateBestHand`
returns a hand that is the evaluation of some 5-card subset and compares
at least as well as the evaluation of every 5-card subset under the
canonical comparator; and every 5-card set with ranks A-2-3-4-5 of mixed
suits evaluates to a straight with high card 5 (not ace-high). -/
theorem C2_evaluateBestHand_max_and_wheel (holeCards communityCards : List Card)
    (hhole : holeCards.length = 2)
    (hcomm3 : 3 ≤ communityCards.length) (hcomm5 : communityCards.length ≤ 5) :
    (∃ r, evaluateBestHand holeCards communityCards = some r
      ∧ (∃ s, List.Sublist s (holeCards ++ communityCards) ∧ s.length = 5
          ∧ r = evaluateFiveCards s)
      ∧ (∀ s, List.Sublist s (holeCards ++ communityCards) → s.length = 5 →
          0 ≤ compareEvaluatedHands r (evaluateFiveCards s)))
    ∧ (∀ s : List Card,
        List.Perm (s.map (fun c => c.rank)) [14, 5, 4, 3, 2] →
        (∃ c1 ∈ s, ∃ c2 ∈ s, c1.suit ≠ c2.suit) →
        (evaluateFiveCards s).rank = HandRank.STRAIGHT
          ∧ (evaluateFiveCards s).values = [HandRank.STRAIGHT, 5]) := by
  refine ⟨?_, fun s hp hs => evaluateFiveCards_wheel s hp hs⟩
  have hlen : (holeCards ++ communityCards).length = 2 + communityCards.length := by
    simp [hhole]
  have h5 : ¬ (holeCards ++ communityCards).length < 5 := by omega
  by_cases h5eq : (holeCards ++ communityCards).length = 5
  · refine ⟨evaluateFiveCards (holeCards ++ communityCards), ?_,
      ⟨holeCards ++ communityCards, List.Sublist.refl _, h5eq, rfl⟩, ?_⟩
    · simp only [evaluateBestHand]
      rw [if_neg h5, if_pos h5eq]
    · intro s hsub hslen
      have hseq : s = holeCards ++ communityCards := hsub.eq_of_length (by omega)
      rw [hseq, compare_self_eq_zero]
  · have h67 : (holeCards ++ communityCards).length = 6
        ∨ (holeCards ++ communityCards).length = 7 := by omega
    have hcombos : (if (holeCards ++ communityCards).length = 7 then COMBINATIONS_7_5
        else getCombinations (holeCards ++ communityCards).length 5)
        = backtrack (holeCards ++ communityCards).length 0 5 := by
      rcases h67 with h6 | h7
      · rw [if_neg (by omega)]
        rfl
      · rw [if_pos h7, h7]
        decide
    have hbne : backtrack (holeCards ++ communityCards).length 0 5 ≠ [] := by
      rcases h67 with h6 | h7
      · rw [h6]; decide
      · rw [h7]; decide
    have hesne : ((backtrack (holeCards ++ communityCards).length 0 5).map
        (fun c => evaluateFiveCards
          (c.map (fun i => (holeCards ++ communityCards).getD i defaultCard)))) ≠ [] := by
      simpa using hbne
    obtain ⟨r, hfold, hmem, hbound⟩ := foldNone_spec _ hesne
    refine ⟨r, ?_, ?_, ?_⟩
    · simp only [evaluateBestHand]
      rw [if_neg h5, if_neg h5eq, hcombos]
      exact (List.foldl_map
        (fun c => evaluateFiveCards
          (c.map (fun i => (holeCards ++ communityCards).getD i defaultCard)))
        evalStep
        (backtrack (holeCards ++ communityCards).length 0 5) none).symm.trans hfold
    · obtain ⟨c, hc, hre⟩ := List.mem_map.mp hmem
      obtain ⟨hlen5, hsub⟩ :=
        backtrack_sound (holeCards ++ communityCards) 5 0 c hc
      refine ⟨c.map (fun i => (holeCards ++ communityCards).getD i defaultCard),
        ?_, hlen5, hre.symm⟩
      simpa using hsub
    · intro s hsub hslen
      obtain ⟨c, hc, hs⟩ := backtrack_complete (holeCards ++ communityCards) 5 s 0
        (by simpa using hsub) hslen
      exact hbound _ (List.mem_map.mpr ⟨c, hc, by rw [hs]⟩)

/-- Witness for C2: a concrete 7-card input (which makes a wheel straight
using the board) together with a concrete mixed-suit wheel. -/
theorem C2_witness :
    (([⟨Suit.spades, 14⟩, ⟨Suit.hearts, 2⟩] : List Card).length = 2
      ∧ 3 ≤ ([⟨Suit.clubs, 3⟩, ⟨Suit.diamonds, 4⟩, ⟨Suit.spades, 5⟩,
          ⟨Suit.hearts, 9⟩, ⟨Suit.clubs, 13⟩] : List Card).length
      ∧ ([⟨Suit.clubs, 3⟩, ⟨Suit.diamonds, 4⟩, ⟨Suit.spades, 5⟩,
          ⟨Suit.hearts, 9⟩, ⟨Suit.clubs, 13⟩] : List Card).length ≤ 5)
    ∧ ((∃ r, evaluateBestHand [⟨Suit.spades, 14⟩, ⟨Suit.hearts, 2⟩]
          [⟨Suit.clubs, 3⟩, ⟨Suit.diamonds, 4⟩, ⟨Suit.spades, 5⟩,
           ⟨Suit.hearts, 9⟩, ⟨Suit.clubs, 13⟩] = some r
        ∧ (∃ s, List.Sublist s ([⟨Suit.spades, 14⟩, ⟨Suit.hearts, 2⟩]
              ++ [⟨Suit.clubs, 3⟩, ⟨Suit.diamonds, 4⟩, ⟨Suit.spades, 5⟩,
                  ⟨Suit.hearts, 9⟩, ⟨Suit.clubs, 13⟩]) ∧ s.length = 5
            ∧ r = evaluateFiveCards s)
        ∧ (∀ s, List.Sublist s ([⟨Suit.spades, 14⟩, ⟨Suit.hearts, 2⟩]
              ++ [⟨Suit.clubs, 3⟩, ⟨Suit.diamonds, 4⟩, ⟨Suit.spades, 5⟩,
                  ⟨Suit.hearts, 9⟩, ⟨Suit.clubs, 13⟩]) → s.length = 5 →
            0 ≤ compareEvaluatedHands r (evaluateFiveCards s)))
      ∧ (∀ s : List Card,
          List.Perm (s.map (fun c => c.rank)) [14, 5, 4, 3, 2] →
          (∃ c1 ∈ s, ∃ c2 ∈ s, c1.suit ≠ c2.suit) →
          (evaluateFiveCards s).rank = HandRank.STRAIGHT
            ∧ (evaluateFiveCards s).values = [HandRank.STRAIGHT, 5])) :=
  ⟨⟨by decide, by decide, by decide⟩,
    C2_evaluateBestHand_max_and_wheel
      [⟨Suit.spades, 14⟩, ⟨Suit.hearts, 2⟩]
      [⟨Suit.clubs, 3⟩, ⟨Suit.diamonds, 4⟩, ⟨Suit.spades, 5⟩,
       ⟨Suit.hearts, 9⟩, ⟨Suit.clubs, 13⟩]
      (by decide) (by decide) (by decide)⟩
